import Mathlib

/-!
Verification of the email content normalization and deduplication
fingerprinting engine (`email_normalization.py`,
`email_deduplication_complete.py`).

The Python code is embedded shallowly:

* strings are `String` / `List Char`; all operations are executable;
* `re` patterns are transcribed into a small regular-expression AST `RE`
  and executed by a fuel-bounded backtracking matcher with Python's
  leftmost-match, ordered-alternation, greedy/lazy semantics;
* `hashlib.sha256(...).hexdigest()` is modelled by the `Digest` type:
  `Digest.str s` stands for the hex digest of `s`, and `Digest.combine l`
  stands for the hex digest of the `'|'`-joined hex digests of `l`
  (injective because hex digests have a fixed length and contain no
  `'|'`); the claims under verification depend only on digest
  (in)equality, which this models under the standard assumption that
  SHA-256 is collision-free on the inputs involved;
* Python's `str.lower`, `str.strip` and the `\s`, `\w` regex classes are
  modelled on ASCII (the repository's data is ASCII apart from the
  specific non-ASCII characters appearing in the patterns themselves,
  which do not change case).
-/

set_option autoImplicit false
set_option maxRecDepth 10000

namespace EmailDedup

/-- ASCII variant of Python `str.lower` (non-ASCII characters are kept). -/
def lowerChar (c : Char) : Char :=
  if 65 ≤ c.toNat ∧ c.toNat ≤ 90 then Char.ofNat (c.toNat + 32) else c

/-- Python whitespace (`\s`, `str.strip`, `str.split`) on ASCII:
space, tab, newline, carriage return, vertical tab, form feed. -/
def isPyWs (c : Char) : Bool :=
  c = ' ' || c = '\t' || c = '\n' || c = '\r' || c = Char.ofNat 11 || c = Char.ofNat 12

/-- Python `\w` on ASCII: letters, digits, underscore. -/
def isWordChar (c : Char) : Bool :=
  (Nat.ble 97 c.toNat && Nat.ble c.toNat 122) ||
  (Nat.ble 65 c.toNat && Nat.ble c.toNat 90) ||
  (Nat.ble 48 c.toNat && Nat.ble c.toNat 57) || c = '_'

/-- `[a-zA-Z0-9]`. -/
def isAlnumAscii (c : Char) : Bool :=
  (Nat.ble 97 c.toNat && Nat.ble c.toNat 122) ||
  (Nat.ble 65 c.toNat && Nat.ble c.toNat 90) ||
  (Nat.ble 48 c.toNat && Nat.ble c.toNat 57)

/-- Removal of the maximal all-whitespace suffix (the right half of
Python `str.strip()`). -/
def dropTrailingWs : List Char → List Char
  | [] => []
  | c :: rest =>
    let r := dropTrailingWs rest
    if r.isEmpty && isPyWs c then [] else c :: r

/-- Python `str.strip()` (both ends, ASCII whitespace). -/
def pyStripL (s : List Char) : List Char :=
  dropTrailingWs (s.dropWhile isPyWs)

/-- Python `str.strip()` on `String`. -/
def pyStrip (s : String) : String :=
  String.mk (pyStripL s.data)

/-- Python `str.split(sep)` for a one-character separator. -/
def splitCharL (sep : Char) : List Char → List (List Char)
  | [] => [[]]
  | c :: rest =>
    if c = sep then [] :: splitCharL sep rest
    else
      match splitCharL sep rest with
      | [] => [[c]]
      | l :: ls => (c :: l) :: ls

/-- `'\n'.join(...)` over character lists. -/
def joinNlL : List (List Char) → List Char
  | [] => []
  | [l] => l
  | l :: ls => l ++ '\n' :: joinNlL ls

/-- One pass of `re.sub(r'\s+', ' ', s)`: every maximal whitespace run
becomes a single space.  The boolean argument records whether the
previously scanned character was part of a whitespace run. -/
def collapseWsGo : Bool → List Char → List Char
  | _, [] => []
  | prevWs, c :: rest =>
    if isPyWs c then
      if prevWs then collapseWsGo true rest
      else ' ' :: collapseWsGo true rest
    else c :: collapseWsGo false rest

/-- `re.sub(r'\s+', ' ', s)`. -/
def collapseWsL (s : List Char) : List Char :=
  collapseWsGo false s

/-- Python `str.split()` with no argument (whitespace runs, empties
dropped); the accumulator holds the current word reversed. -/
def pySplitWsAux : List Char → List Char → List (List Char)
  | acc, [] => if acc.isEmpty then [] else [acc.reverse]
  | acc, c :: rest =>
    if isPyWs c then
      if acc.isEmpty then pySplitWsAux [] rest
      else acc.reverse :: pySplitWsAux [] rest
    else pySplitWsAux (c :: acc) rest

/-- Python `str.split()` with no argument. -/
def pySplitWsL (s : List Char) : List (List Char) :=
  pySplitWsAux [] s

/-- Python `str.replace(old, new)` (leftmost, non-overlapping), with the
scan bounded by a fuel argument. -/
def pyReplaceAux (old new : List Char) : Nat → List Char → List Char
  | _, [] => []
  | 0, s => s
  | fuel+1, c :: rest =>
    if old.isPrefixOf (c :: rest) then
      if old.isEmpty then c :: rest
      else new ++ pyReplaceAux old new fuel ((c :: rest).drop old.length)
    else c :: pyReplaceAux old new fuel rest

/-- Python `str.replace(old, new)`. -/
def pyReplaceL (s old new : List Char) : List Char :=
  pyReplaceAux old new (s.length + 1) s

/-!
## A small regular-expression engine

`RE` is the abstract syntax of the fragment of Python `re` used by the
repository.  `reMatch` is a continuation-passing backtracking matcher
with Python semantics: ordered alternation, greedy (`starG`) and lazy
(`starL`) repetition, word boundaries (`wb`, needs the previous
character), and end of input (`eos`).  A fuel argument makes it total;
`engineFuel` far exceeds what any input in this development consumes.
-/

inductive RE where
  | eps
  | pred (p : Char → Bool)
  | seq (a b : RE)
  | alt (a b : RE)
  | starG (a : RE)
  | starL (a : RE)
  | eos
  | wb

/-- Backtracking matcher.  `prev` is the character immediately before
the current position (for `\b`); the continuation `k` receives the new
`prev` and the remaining input, and the first success wins.  Starred
sub-patterns must consume input on every iteration (all patterns in this
development do), which Python also enforces by not repeating empty
matches. -/
def reMatch (fuel : Nat) (r : RE) (prev : Option Char) (s : List Char)
    (k : Option Char → List Char → Option (List Char)) : Option (List Char) :=
  match fuel, r with
  | 0, _ => none
  | _+1, .eps => k prev s
  | _+1, .pred p =>
    match s with
    | [] => none
    | c :: rest => if p c then k (some c) rest else none
  | fuel+1, .seq a b =>
    reMatch fuel a prev s (fun p2 s2 => reMatch fuel b p2 s2 k)
  | fuel+1, .alt a b =>
    match reMatch fuel a prev s k with
    | some res => some res
    | none => reMatch fuel b prev s k
  | fuel+1, .starG a =>
    match reMatch fuel a prev s
        (fun p2 s2 =>
          if s2.length < s.length then reMatch fuel (.starG a) p2 s2 k else none) with
    | some res => some res
    | none => k prev s
  | fuel+1, .starL a =>
    match k prev s with
    | some res => some res
    | none =>
      reMatch fuel a prev s
        (fun p2 s2 =>
          if s2.length < s.length then reMatch fuel (.starL a) p2 s2 k else none)
  | _+1, .eos =>
    match s with
    | [] => k prev s
    | _ :: _ => none
  | _+1, .wb =>
    let pw := match prev with | some c => isWordChar c | none => false
    let nw := match s with | c :: _ => isWordChar c | [] => false
    if pw ≠ nw then k prev s else none

/-- Fuel bound used throughout; far larger than any scan performed here. -/
def engineFuel : Nat := 1000000

/-- Try to match `r` at the current position; returns the rest of the
input after the match. -/
def reMatchHere (r : RE) (prev : Option Char) (s : List Char) : Option (List Char) :=
  reMatch engineFuel r prev s (fun _ rem => some rem)

/-- `re.search`: scan left to right, return `(text before the match,
text after the match)` for the leftmost match. -/
def reSearchAux (r : RE) : List Char → Option Char → List Char →
    Option (List Char × List Char)
  | acc, prev, s =>
    match reMatchHere r prev s with
    | some rem => some (acc.reverse, rem)
    | none =>
      match s with
      | [] => none
      | c :: rest => reSearchAux r (c :: acc) (some c) rest

/-- `re.search` split view of the leftmost match. -/
def reSearchSplit (r : RE) (s : List Char) : Option (List Char × List Char) :=
  reSearchAux r [] none s

/-- `re.sub(r, repl, s)`: replace every (leftmost, non-overlapping)
match.  The first argument is fuel (one unit per consumed character). -/
def reSubAux (r : RE) (repl : List Char) : Nat → Option Char → List Char → List Char
  | 0, _, s => s
  | fuel+1, prev, s =>
    match reMatchHere r prev s with
    | some rem =>
      if rem.length < s.length then
        repl ++ reSubAux r repl fuel ((s.take (s.length - rem.length)).getLast?) rem
      else s
    | none =>
      match s with
      | [] => []
      | c :: rest => c :: reSubAux r repl fuel (some c) rest

/-- `re.sub(r, repl, s)` over the whole input. -/
def reSubAll (r : RE) (repl : List Char) (s : List Char) : List Char :=
  reSubAux r repl (s.length + 1) none s

/-- `re.sub` for a pattern anchored at the start of the string (`^...`,
no MULTILINE): at most one replacement, at position 0. -/
def reSubAnchored (r : RE) (repl : List Char) (s : List Char) : List Char :=
  match reMatchHere r none s with
  | some rem => repl ++ rem
  | none => s

/-- Single literal character. -/
def chr (c : Char) : RE := .pred (fun d => d = c)

/-- Single literal character under `re.IGNORECASE` (ASCII folding). -/
def ciChr (c : Char) : RE := .pred (fun d => lowerChar d = lowerChar c)

/-- Literal word. -/
def reStrS (s : String) : RE :=
  s.data.foldr (fun c r => .seq (chr c) r) .eps

/-- Literal word under `re.IGNORECASE`. -/
def ciStrS (s : String) : RE :=
  s.data.foldr (fun c r => .seq (ciChr c) r) .eps

/-- `r+` (greedy). -/
def rePlus (r : RE) : RE := .seq r (.starG r)

/-- `r+?` (lazy). -/
def reLazyPlus (r : RE) : RE := .seq r (.starL r)

/-- `r?` (greedy). -/
def reOpt (r : RE) : RE := .alt r .eps

/-- `r{n}`. -/
def reRep : Nat → RE → RE
  | 0, _ => .eps
  | n+1, r => .seq r (reRep n r)

/-- `r{n,}` (greedy). -/
def reAtLeast (n : Nat) (r : RE) : RE := .seq (reRep n r) (.starG r)

/-- Ordered alternation of a nonempty list. -/
def reAlts : List RE → RE
  | [] => .eps
  | [r] => r
  | r :: rest => .alt r (reAlts rest)

/-- `\s`. -/
def wsP : RE := .pred isPyWs

/-- `.` with `re.DOTALL`. -/
def reAny : RE := .pred (fun _ => true)

/-- `.` without `re.DOTALL`. -/
def reAnyNoNl : RE := .pred (fun c => c ≠ '\n')

/-!
## `email_normalization.py` — `ContentNormalizer`

The five `tracking_patterns`, the `url_pattern`, the `email_pattern`
and the whitespace handling of `ContentNormalizer.normalize`, in the
order the source applies them.
-/

/-- `[^&\s]`. -/
def notAmpWs (c : Char) : Bool := !(c = '&' || isPyWs c)

/-- `[^"\s]`. -/
def notQuoteWs (c : Char) : Bool := !(c = Char.ofNat 34 || isPyWs c)

/-- `[^?\s]`. -/
def notQmarkWs (c : Char) : Bool := !(c = '?' || isPyWs c)

/-- `[^#\s]`. -/
def notHashWs (c : Char) : Bool := !(c = '#' || isPyWs c)

/-- `[^\s]`. -/
def notWs (c : Char) : Bool := !isPyWs c

/-- `[a-zA-Z0-9-]`. -/
def isAlnumDash (c : Char) : Bool := isAlnumAscii c || c = '-'

/-- `r'\?utm_[^&\s]+=[^&\s]+'`. -/
def trackingUtmQ : RE :=
  .seq (chr '?') <| .seq (reStrS ("utm_")) <| .seq (rePlus (.pred notAmpWs)) <|
  .seq (chr '=') (rePlus (.pred notAmpWs))

/-- `r'&utm_[^&\s]+=[^&\s]+'`. -/
def trackingUtmA : RE :=
  .seq (chr '&') <| .seq (reStrS ("utm_")) <| .seq (rePlus (.pred notAmpWs)) <|
  .seq (chr '=') (rePlus (.pred notAmpWs))

/-- `r'/track/click/[a-zA-Z0-9]+'`. -/
def trackingClick : RE :=
  .seq (reStrS ("/track/click/")) (rePlus (.pred isAlnumAscii))

/-- `r'/pixel\.gif\?[^"\s]+'`. -/
def trackingPixel : RE :=
  .seq (reStrS ("/pixel.gif?")) (rePlus (.pred notQuoteWs))

/-- `r'mailtrack\.io/trace/[a-zA-Z0-9]+'`. -/
def trackingMailtrack : RE :=
  .seq (reStrS ("mailtrack.io/trace/")) (rePlus (.pred isAlnumAscii))

/-- `tracking_patterns`, in source order. -/
def trackingPatterns : List RE :=
  [trackingUtmQ, trackingUtmA, trackingClick, trackingPixel, trackingMailtrack]

/-- The tracking-removal loop:
`for pattern in tracking_patterns: normalized = re.sub(pattern, '', normalized)`. -/
def stripTrackingL (s : List Char) : List Char :=
  trackingPatterns.foldl (fun t r => reSubAll r [] t) s

/-- `url_pattern`:
`https?://(?:www\.)?[a-zA-Z0-9-]+(?:\.[a-zA-Z0-9-]+)*(?:/[^?\s]*)?(?:\?[^#\s]*)?(?:#[^\s]*)?`. -/
def urlPattern : RE :=
  .seq (reStrS ("http")) <| .seq (reOpt (chr 's')) <| .seq (reStrS ("://")) <|
  .seq (reOpt (reStrS ("www."))) <| .seq (rePlus (.pred isAlnumDash)) <|
  .seq (.starG (.seq (chr '.') (rePlus (.pred isAlnumDash)))) <|
  .seq (reOpt (.seq (chr '/') (.starG (.pred notQmarkWs)))) <|
  .seq (reOpt (.seq (chr '?') (.starG (.pred notHashWs)))) <|
  reOpt (.seq (chr '#') (.starG (.pred notWs)))

/-- `[A-Za-z0-9._%+-]`. -/
def isEmailLocalChar (c : Char) : Bool :=
  isAlnumAscii c || c = '.' || c = '_' || c = '%' || c = '+' || c = '-'

/-- `[A-Za-z0-9.-]`. -/
def isEmailDomChar (c : Char) : Bool :=
  isAlnumAscii c || c = '.' || c = '-'

/-- `[A-Z|a-z]` — NB the source's class contains a literal `'|'`. -/
def isTldChar (c : Char) : Bool :=
  (Nat.ble 65 c.toNat && Nat.ble c.toNat 90) ||
  (Nat.ble 97 c.toNat && Nat.ble c.toNat 122) || c = '|'

/-- `email_pattern`: `\b[A-Za-z0-9._%+-]+@[A-Za-z0-9.-]+\.[A-Z|a-z]{2,}\b`. -/
def emailPattern : RE :=
  .seq .wb <| .seq (rePlus (.pred isEmailLocalChar)) <| .seq (chr '@') <|
  .seq (rePlus (.pred isEmailDomChar)) <| .seq (chr '.') <|
  .seq (reAtLeast 2 (.pred isTldChar)) .wb

/-- `url_pattern.sub('[URL]', s)`. -/
def urlSubL (s : List Char) : List Char :=
  reSubAll urlPattern (("[URL]").data) s

/-- `email_pattern.sub('[EMAIL]', s)`. -/
def emailSubL (s : List Char) : List Char :=
  reSubAll emailPattern (("[EMAIL]").data) s

/-- The zero-width characters removed by `normalize` (U+200B, U+200C,
U+200D, U+FEFF); each is removed by `str.replace(ch, '')`, i.e. a
filter. -/
def isZeroWidth (c : Char) : Bool :=
  c = Char.ofNat 0x200b || c = Char.ofNat 0x200c ||
  c = Char.ofNat 0x200d || c = Char.ofNat 0xfeff

/-- The zero-width-character removal loop of `normalize`. -/
def zwRemoveL (s : List Char) : List Char :=
  s.filter (fun c => !isZeroWidth c)

/-- Whitespace normalization of `normalize`: flat mode collapses all
whitespace runs to single spaces; `preserve_structure` mode splits on
newlines and applies `line.strip()` followed by the run collapse per
line. -/
def wsNormalizeL (preserveStructure : Bool) (s : List Char) : List Char :=
  if preserveStructure then
    joinNlL ((splitCharL '\n' s).map (fun l => collapseWsL (pyStripL l)))
  else collapseWsL s

/-- The first key of the source's `variations` dict.  In the source the
entry is written `''': "'",` — Python lexes the `'''` as the opening of
a triple-quoted string, which runs to the `'''` on the following line,
so the actual key is the string
`: "'",  # Smart single quotes\n` followed by twelve spaces (and the
smart-quote characters the comment speaks of never appear in the dict). -/
def smartKeyA : List Char :=
  [':', ' ', Char.ofNat 34, Char.ofNat 39, Char.ofNat 34, ',', ' ', ' ', '#', ' ',
   'S', 'm', 'a', 'r', 't', ' ', 's', 'i', 'n', 'g', 'l', 'e', ' ',
   'q', 'u', 'o', 't', 'e', 's', '\n'] ++ List.replicate 12 ' '

/-- The `variations` replacement loop of `normalize`, with each entry of
the dict applied via `str.replace` in insertion order: the accidental
triple-quoted key (→ `'`), the ASCII double quote (→ itself), en dash
and em dash (→ `-`), ellipsis (→ `...`). -/
def foldVariationsL (s : List Char) : List Char :=
  let s1 := pyReplaceL s smartKeyA [Char.ofNat 39]
  let s2 := pyReplaceL s1 [Char.ofNat 34] [Char.ofNat 34]
  let s3 := pyReplaceL s2 [Char.ofNat 0x2013] ['-']
  let s4 := pyReplaceL s3 [Char.ofNat 0x2014] ['-']
  pyReplaceL s4 [Char.ofNat 0x2026] ['.', '.', '.']

/-- `ContentNormalizer.normalize` on character lists, in source order:
lower-case; strip tracking patterns; substitute URLs; substitute email
addresses; remove zero-width characters; normalize whitespace; apply
the `variations` replacements; strip. -/
def normalizeL (preserveStructure : Bool) (s : List Char) : List Char :=
  if s.isEmpty then []
  else
    pyStripL (foldVariationsL (wsNormalizeL preserveStructure
      (zwRemoveL (emailSubL (urlSubL (stripTrackingL (s.map lowerChar)))))))

/-- `ContentNormalizer.normalize(text, preserve_structure)`. -/
def ContentNormalizer.normalize (text : String) (preserveStructure : Bool) : String :=
  String.mk (normalizeL preserveStructure text.data)

/-!
## `email_deduplication_complete.py` — `AdvancedContentParser`

The forward, reply, intent and signature pattern tables, in source
order, and `parse_email_structure`.  Forward patterns are searched with
`re.MULTILINE | re.IGNORECASE | re.DOTALL`; reply patterns are anchored
per line with `re.match(..., re.IGNORECASE)`; intent patterns are
searched in the lower-cased content with no flags; signature patterns
with `re.MULTILINE | re.IGNORECASE`.
-/

/-- `[-─━═]` (hyphen, U+2500, U+2501, U+2550). -/
def isBannerDash (c : Char) : Bool :=
  c = '-' || c = Char.ofNat 0x2500 || c = Char.ofNat 0x2501 || c = Char.ofNat 0x2550

/-- `r'[-─━═]{3,}\s*Forwarded\s+[Mm]essage\s*[-─━═]{3,}'`. -/
def fwdStandard : RE :=
  .seq (reAtLeast 3 (.pred isBannerDash)) <| .seq (.starG wsP) <|
  .seq (ciStrS ("forwarded")) <| .seq (rePlus wsP) <| .seq (ciStrS ("message")) <|
  .seq (.starG wsP) (reAtLeast 3 (.pred isBannerDash))

/-- `r'Begin\s+forwarded\s+message:'`. -/
def fwdApple : RE :=
  .seq (ciStrS ("begin")) <| .seq (rePlus wsP) <| .seq (ciStrS ("forwarded")) <|
  .seq (rePlus wsP) (ciStrS ("message:"))

/-- `r'------\s*Original\s+Message\s*------'`. -/
def fwdOutlook : RE :=
  .seq (reStrS ("------")) <| .seq (.starG wsP) <| .seq (ciStrS ("original")) <|
  .seq (rePlus wsP) <| .seq (ciStrS ("message")) <| .seq (.starG wsP) (reStrS ("------"))

/-- `r'_{10,}\s*From:.*?Sent:.*?To:.*?Subject:'` (DOTALL). -/
def fwdOutlookVerbose : RE :=
  .seq (reAtLeast 10 (chr '_')) <| .seq (.starG wsP) <| .seq (ciStrS ("From:")) <|
  .seq (.starL reAny) <| .seq (ciStrS ("Sent:")) <| .seq (.starL reAny) <|
  .seq (ciStrS ("To:")) <| .seq (.starL reAny) (ciStrS ("Subject:"))

/-- `r'[-─━═]{3,}\s*Message\s+transféré\s*[-─━═]{3,}'`. -/
def fwdFrench : RE :=
  .seq (reAtLeast 3 (.pred isBannerDash)) <| .seq (.starG wsP) <|
  .seq (ciStrS ("message")) <| .seq (rePlus wsP) <|
  .seq (ciStrS (String.mk (['t', 'r', 'a', 'n', 's', 'f', Char.ofNat 0xe9, 'r', Char.ofNat 0xe9]))) <|
  .seq (.starG wsP) (reAtLeast 3 (.pred isBannerDash))

/-- `r'[-─━═]{3,}\s*Mensaje\s+reenviado\s*[-─━═]{3,}'`. -/
def fwdSpanish : RE :=
  .seq (reAtLeast 3 (.pred isBannerDash)) <| .seq (.starG wsP) <|
  .seq (ciStrS ("mensaje")) <| .seq (rePlus wsP) <| .seq (ciStrS ("reenviado")) <|
  .seq (.starG wsP) (reAtLeast 3 (.pred isBannerDash))

/-- `r'[-─━═]{3,}\s*Weitergeleitete\s+Nachricht\s*[-─━═]{3,}'`. -/
def fwdGerman : RE :=
  .seq (reAtLeast 3 (.pred isBannerDash)) <| .seq (.starG wsP) <|
  .seq (ciStrS ("weitergeleitete")) <| .seq (rePlus wsP) <| .seq (ciStrS ("nachricht")) <|
  .seq (.starG wsP) (reAtLeast 3 (.pred isBannerDash))

/-- `forward_patterns`, in source order. -/
def forwardPatterns : List RE :=
  [fwdStandard, fwdApple, fwdOutlook, fwdOutlookVerbose, fwdFrench, fwdSpanish, fwdGerman]

/-- `r'On\s+.+?,\s+.+?\s+wrote:'`. -/
def replyGmail : RE :=
  .seq (ciStrS ("on")) <| .seq (rePlus wsP) <| .seq (reLazyPlus reAnyNoNl) <|
  .seq (chr ',') <| .seq (rePlus wsP) <| .seq (reLazyPlus reAnyNoNl) <|
  .seq (rePlus wsP) (ciStrS ("wrote:"))

/-- `r'Le\s+.+?\s+à\s+.+?,\s+.+?\s+a\s+écrit\s*:'`. -/
def replyFrench : RE :=
  .seq (ciStrS ("le")) <| .seq (rePlus wsP) <| .seq (reLazyPlus reAnyNoNl) <|
  .seq (rePlus wsP) <| .seq (ciChr (Char.ofNat 0xe0)) <| .seq (rePlus wsP) <|
  .seq (reLazyPlus reAnyNoNl) <| .seq (chr ',') <| .seq (rePlus wsP) <|
  .seq (reLazyPlus reAnyNoNl) <| .seq (rePlus wsP) <| .seq (ciChr 'a') <|
  .seq (rePlus wsP) <|
  .seq (ciStrS (String.mk ([Char.ofNat 0xe9, 'c', 'r', 'i', 't']))) <|
  .seq (.starG wsP) (chr ':')

/-- `r'Am\s+.+?\s+um\s+.+?\s+schrieb\s+.+?:'`. -/
def replyGerman : RE :=
  .seq (ciStrS ("am")) <| .seq (rePlus wsP) <| .seq (reLazyPlus reAnyNoNl) <|
  .seq (rePlus wsP) <| .seq (ciStrS ("um")) <| .seq (rePlus wsP) <|
  .seq (reLazyPlus reAnyNoNl) <| .seq (rePlus wsP) <| .seq (ciStrS ("schrieb")) <|
  .seq (rePlus wsP) <| .seq (reLazyPlus reAnyNoNl) (chr ':')

/-- `reply_patterns`, in source order. -/
def replyPatterns : List RE :=
  [replyGmail, replyFrench, replyGerman]

/-- `intent_patterns`, in source (dict insertion) order; searched in the
already lower-cased content. -/
def intentPatterns : List (RE × String) :=
  [(.seq .wb (.seq (reStrS ("fyi")) .wb), "information_sharing"),
   (.seq .wb (.seq (reStrS ("for your information")) .wb), "information_sharing"),
   (.seq .wb (.seq (reStrS ("heads up")) .wb), "information_sharing"),
   (.seq .wb (reStrS ("thoughts?")), "seeking_input"),
   (.seq .wb (reStrS ("what do you think")), "seeking_opinion"),
   (.seq .wb (reStrS ("your opinion")), "seeking_opinion"),
   (.seq .wb (reStrS ("please advise")), "seeking_advice"),
   (.seq .wb (.seq (reStrS ("please review")) .wb), "action_required"),
   (.seq .wb (.seq (reStrS ("action required")) .wb), "action_required"),
   (.seq .wb (.seq (reStrS ("can you")) .wb), "request"),
   (.seq .wb (.seq (reStrS ("urgent")) .wb), "urgent_forward"),
   (.seq .wb (.seq (reStrS ("asap")) .wb), "urgent_forward")]

/-- `signature_patterns`, in source order. -/
def signaturePatterns : List RE :=
  [.seq (reStrS ("--")) (.seq (.starG wsP) (chr '\n')),
   .seq (ciStrS ("best")) (.seq (reOpt (chr ',')) (.seq (.starG wsP) (chr '\n'))),
   .seq (ciStrS ("regards")) (.seq (reOpt (chr ',')) (.seq (.starG wsP) (chr '\n'))),
   ciStrS ("Sent from my iPhone"),
   ciStrS ("Sent from my Android")]

/-- First signature pattern (in table order) with a match anywhere in
the content; returns the text before the match. -/
def sigSearch : List RE → List Char → Option (List Char)
  | [], _ => none
  | r :: rest, s =>
    match reSearchSplit r s with
    | some (before, _) => some before
    | none => sigSearch rest s

/-- `AdvancedContentParser._remove_signatures`. -/
def removeSignaturesL (content : List Char) : List Char :=
  if content.isEmpty then content
  else
    match sigSearch signaturePatterns content with
    | some before => pyStripL before
    | none => content

/-- First forward pattern (in table order) with a match anywhere in the
content; returns `(text before the match, text after the match)`. -/
def forwardSplitAux : List RE → List Char → Option (List Char × List Char)
  | [], _ => none
  | r :: rest, s =>
    match reSearchSplit r s with
    | some p => some p
    | none => forwardSplitAux rest s

/-- The forward-pattern scan of `parse_email_structure`. -/
def forwardSplitL (s : List Char) : Option (List Char × List Char) :=
  forwardSplitAux forwardPatterns s

/-- Does some reply pattern match at the start of this line
(`re.match`)? -/
def replyMatchLine (l : List Char) : Bool :=
  replyPatterns.any (fun r => (reMatchHere r none l).isSome)

/-- The line-by-line reply scan of `parse_email_structure`: the first
line at which a reply pattern matches splits the body into
`(lines before, matching line and the rest)`, both still unjoined. -/
def replySplitAux : List (List Char) → List (List Char) → Option (List Char × List Char)
  | _, [] => none
  | acc, l :: rest =>
    if replyMatchLine l then some (joinNlL acc.reverse, joinNlL (l :: rest))
    else replySplitAux (l :: acc) rest

/-- The reply scan over `content.split('\n')`. -/
def replySplitL (s : List Char) : Option (List Char × List Char) :=
  replySplitAux [] (splitCharL '\n' s)

/-- First intent pattern (in table order) matching anywhere. -/
def findIntent : List (RE × String) → List Char → Option String
  | [], _ => none
  | (r, label) :: rest, s =>
    if (reSearchSplit r s).isSome then some label else findIntent rest s

/-- `AdvancedContentParser._detect_intent`. -/
def detectIntentL (content : List Char) : Option String :=
  if content.isEmpty then none
  else
    let normalized := content.map lowerChar
    match findIntent intentPatterns normalized with
    | some intent => some intent
    | none =>
      let wordCount := (pySplitWsL normalized).length
      if 2 ≤ wordCount then some ("comment")
      else if wordCount = 1 then some ("brief_comment")
      else none

/-- `AdvancedContentParser._detect_intent` on `String`. -/
def detectIntent (content : String) : Option String :=
  detectIntentL content.data

/-- `AdvancedContentParser._is_meaningful`. -/
def isMeaningfulL (content : List Char) : Bool :=
  if content.isEmpty || (pyStripL content).length = 0 then false
  else 0 < (pyStripL content).length

/-- The dataclass `ParsedEmail`; `parsing_confidence` is a `float` in
the source, modelled by `Rat` (only the exact decimal constants 1.0,
0.9, 0.85, 0.95 occur). -/
structure ParsedEmail where
  type : String
  new_content : Option String
  quoted_content : Option String
  new_content_meaningful : Bool
  new_content_intent : Option String
  parsing_confidence : Rat
deriving DecidableEq, Repr

/-- Python `x if x else None` on a string. -/
def optOfContent (s : List Char) : Option String :=
  if s.isEmpty then none else some (String.mk s)

/-- `AdvancedContentParser.parse_email_structure`. -/
def parse_email_structure (content : String) : ParsedEmail :=
  if content = "" then
    { type := "empty", new_content := none, quoted_content := none,
      new_content_meaningful := false, new_content_intent := none,
      parsing_confidence := 1 }
  else
    match forwardSplitL content.data with
    | some (pre, post) =>
      let nc := removeSignaturesL (pyStripL pre)
      { type := "forward", new_content := optOfContent nc,
        quoted_content := some (String.mk (pyStripL post)),
        new_content_meaningful := isMeaningfulL nc,
        new_content_intent := detectIntentL nc,
        parsing_confidence := 9/10 }
    | none =>
      match replySplitL content.data with
      | some (pre, post) =>
        let nc := removeSignaturesL (pyStripL pre)
        { type := "reply", new_content := optOfContent nc,
          quoted_content := some (String.mk (pyStripL post)),
          new_content_meaningful := isMeaningfulL nc,
          new_content_intent := detectIntentL nc,
          parsing_confidence := 85/100 }
      | none =>
        let cleanContent := removeSignaturesL content.data
        { type := "original", new_content := some (String.mk cleanContent),
          quoted_content := none,
          new_content_meaningful := true,
          new_content_intent := some ("original_message"),
          parsing_confidence := 95/100 }

/-!
## `email_deduplication_complete.py` — `EmailAliasResolver`

`resolve` is a pure function (the source's `lru_cache` only memoizes
it); the `domain_rules` dict and the `alias_patterns` list are
transcribed verbatim.  NB `resolve` reads only the keys
`preserve_plus`, `ignore_dots` and `remove_dash_suffix`; the
`remove_plus` entries of `domain_rules` are present in the source but
never consulted.
-/

/-- One `domain_rules` entry. -/
structure DomainRule where
  ignore_dots : Bool := false
  remove_plus : Bool := false
  preserve_plus : Bool := false
  remove_dash_suffix : Bool := false
deriving DecidableEq, Repr

/-- `domain_rules` (with `rules = domain_rules.get(domain, {})`). -/
def domainRules (domain : List Char) : DomainRule :=
  if domain = ("gmail.com").data then { ignore_dots := true, remove_plus := true }
  else if domain = ("googlemail.com").data then { ignore_dots := true, remove_plus := true }
  else if domain = ("yahoo.com").data then { remove_dash_suffix := true, remove_plus := true }
  else if domain = ("outlook.com").data then { remove_plus := true }
  else if domain = ("hotmail.com").data then { remove_plus := true }
  else if domain = ("protonmail.com").data then { ignore_dots := true, preserve_plus := true }
  else {}

/-- `plus_pattern`: `r'\+[^@]+'`. -/
def plusPattern : RE :=
  .seq (chr '+') (rePlus (.pred (fun c => c ≠ '@')))

/-- `r'-[^@]+$'` (the Yahoo dash-suffix rule). -/
def dashSuffixPattern : RE :=
  .seq (chr '-') (.seq (rePlus (.pred (fun c => c ≠ '@'))) .eos)

/-- `alias_patterns`, in source order; each pattern is anchored
(`re.match` guard, and `^` in the pattern itself), and the replacement
replaces the matched prefix. -/
def aliasPatterns : List (RE × String) :=
  [(.seq (reAlts [reStrS ("support"), reStrS ("help"), reStrS ("contact"),
      reStrS ("info"), reStrS ("hello"), reStrS ("admin")]) (chr '@'), "primary@"),
   (.seq (reAlts [reStrS ("noreply"), reStrS ("no-reply"), reStrS ("donotreply")])
      (chr '@'), "automated@"),
   (.seq (reAlts [.seq (reStrS ("notification")) (reOpt (chr 's')),
      .seq (reStrS ("alert")) (reOpt (chr 's')),
      .seq (reStrS ("update")) (reOpt (chr 's'))]) (chr '@'), "automated@")]

/-- The alias-pattern loop: first pattern with an anchored match wins
(`break`), and `re.sub` rewrites the matched prefix. -/
def applyAliasPatterns : List (RE × String) → List Char → List Char
  | [], s => s
  | (r, repl) :: rest, s =>
    match reMatchHere r none s with
    | some rem => repl.data ++ rem
    | none => applyAliasPatterns rest s

/-- `email.rsplit('@', 1)`: split at the last `'@'` (assumes one is
present). -/
def rsplitLocalDomain (s : List Char) : List Char × List Char :=
  let rev := s.reverse
  let domRev := rev.takeWhile (fun c => c ≠ '@')
  ((rev.drop (domRev.length + 1)).reverse, domRev.reverse)

/-- `EmailAliasResolver.resolve`. -/
def resolve (email : String) : String :=
  if email = "" || !(email.data.any (fun c => c = '@')) then email
  else
    let e := pyStripL (email.data.map lowerChar)
    let localDomain := rsplitLocalDomain e
    let domain := localDomain.2
    let rules := domainRules domain
    let local1 :=
      if rules.preserve_plus then localDomain.1
      else reSubAll plusPattern [] localDomain.1
    let local2 :=
      if rules.ignore_dots then local1.filter (fun c => c ≠ '.')
      else local1
    let local3 :=
      if rules.remove_dash_suffix then reSubAll dashSuffixPattern [] local2
      else local2
    let reconstructed := local3 ++ '@' :: domain
    String.mk (applyAliasPatterns aliasPatterns reconstructed)

/-!
## `email_deduplication_complete.py` — HTML text extraction

`HTMLTextExtractor` subclasses the standard library's `html.parser`:
the tokenization (and the `unescape` and comment-stripping calls inside
the `try` block of `html_to_text`) belong to the standard library, not
to this repository, and any of them may raise on adversarial input.
They are therefore modelled as a caller-supplied oracle
`run : String → HtmlParseOutcome` which either produces the token
stream the extractor's handlers consume, or fails carrying the string
the `except` branch then tag-strips.  The handler logic itself
(`handle_starttag` / `handle_endtag` / `handle_data` / `get_text`) and
the fallback regexes are translated from the source.
-/

/-- Parser events dispatched to `HTMLTextExtractor`. -/
inductive HtmlToken where
  | startTag (name : String)
  | endTag (name : String)
  | textData (d : String)
deriving DecidableEq, Repr

/-- `skip_tags`. -/
def skipTags : List String := ["script", "style", "meta", "link"]

/-- `block_tags`. -/
def blockTags : List String :=
  ["p", "div", "br", "h1", "h2", "h3", "h4", "h5", "h6", "li", "tr"]

/-- Mutable state of `HTMLTextExtractor`. -/
structure ExtractorState where
  text_parts : List String
  current_tag : Option String
deriving DecidableEq, Repr

/-- `handle_starttag`. -/
def handleStarttag (st : ExtractorState) (tag : String) : ExtractorState :=
  let parts :=
    if blockTags.contains tag &&
        !st.text_parts.isEmpty && st.text_parts.getLast? ≠ some ("\n") then
      st.text_parts ++ ["\n"]
    else st.text_parts
  { text_parts := parts, current_tag := some tag }

/-- `handle_endtag`. -/
def handleEndtag (st : ExtractorState) (tag : String) : ExtractorState :=
  let parts :=
    if blockTags.contains tag &&
        !st.text_parts.isEmpty && st.text_parts.getLast? ≠ some ("\n") then
      st.text_parts ++ ["\n"]
    else st.text_parts
  { text_parts := parts, current_tag := none }

/-- `handle_data` (`None not in skip_tags` is true, so data outside any
tag is kept). -/
def handleData (st : ExtractorState) (d : String) : ExtractorState :=
  let inSkip :=
    match st.current_tag with
    | some t => skipTags.contains t
    | none => false
  if inSkip then st
  else
    let text := pyStrip d
    if text = "" then st
    else { st with text_parts := st.text_parts ++ [text, " "] }

/-- Feeding the token stream through the handlers. -/
def feedTokens (tokens : List HtmlToken) : ExtractorState :=
  tokens.foldl
    (fun st tok =>
      match tok with
      | .startTag t => handleStarttag st t
      | .endTag t => handleEndtag st t
      | .textData d => handleData st d)
    { text_parts := [], current_tag := none }

/-- `r'\n\s*\n+'`. -/
def blankLinesPattern : RE :=
  .seq (chr '\n') (.seq (.starG wsP) (rePlus (chr '\n')))

/-- `r' +'`. -/
def spaceRunPattern : RE := rePlus (chr ' ')

/-- `HTMLTextExtractor.get_text`. -/
def getText (st : ExtractorState) : String :=
  let t := (String.join st.text_parts).data
  let t := reSubAll blankLinesPattern ['\n', '\n'] t
  let t := reSubAll spaceRunPattern [' '] t
  String.mk (pyStripL t)

/-- Outcome of the `try` block of `html_to_text` up to and including
tokenization: either the token stream, or an exception raised with the
content in whatever partially-transformed state it had reached. -/
inductive HtmlParseOutcome where
  | parsed (tokens : List HtmlToken)
  | failed (contentAtError : String)

/-- `r'<[^>]+>'`. -/
def tagPattern : RE :=
  .seq (chr '<') (.seq (rePlus (.pred (fun c => c ≠ '>'))) (chr '>'))

/-- `r'\s+'`. -/
def wsRunPattern : RE := rePlus wsP

/-- The `except` branch of `html_to_text`: blunt tag stripping plus
whitespace collapse plus strip. -/
def fallbackStrip (s : String) : String :=
  let t := reSubAll tagPattern [' '] s.data
  let t := reSubAll wsRunPattern [' '] t
  String.mk (pyStripL t)

/-- `html_to_text`. -/
def html_to_text (run : String → HtmlParseOutcome) (html_content : String) : String :=
  if html_content = "" then ""
  else
    match run html_content with
    | .parsed tokens => getText (feedTokens tokens)
    | .failed s => fallbackStrip s

/-!
## `email_deduplication_complete.py` — `CompleteEmailFingerprinter`

`hashlib.sha256(x.encode('utf-8')).hexdigest()` is modelled by
`Digest.str x`; `_generate_composite_hash`, which hashes the `'|'`-join
of the component hex digests, by `Digest.combine` (injective for the
same reason the join of fixed-length hex digests is).  The `email_data`
dict is modelled by the record `EmailData`; fields the source reads
with `.get(key, default)` and truthiness tests carry their Python
defaults, with the empty string / empty list standing for an absent or
falsy value exactly as in the source's `if email_data.get(...)` tests.
`references` may be a list or a string in the source
(`isinstance` tests), and the recipient fields may be a string or a
list, hence the two small sum types.
-/

/-- Model of a SHA-256 hex digest: `Digest.str s` is the digest of the
string `s`, and `Digest.combine l` (the fold of `cons`/`nil` below) is
the digest of the `'|'.join` of the hex digests of `l`.  The join of
fixed-length hex digests is injective in the list of digests, so the
model keeps exactly the (in)equalities of the hex digests under the
standard collision-freeness assumption. -/
inductive Digest where
  | str (s : String) : Digest
  | nil : Digest
  | cons (head tail : Digest) : Digest
deriving DecidableEq, Repr

/-- The digest of the `'|'`-joined hex digests of `l` (injective in
`l`, as the join of fixed-length hex digests is). -/
def Digest.combine (l : List Digest) : Digest :=
  l.foldr .cons .nil

/-- A field that Python code may populate with a string or a list. -/
inductive StrOrList where
  | strVal (s : String)
  | listVal (l : List String)
deriving DecidableEq, Repr

/-- The `references` header field: absent, a list, or a string. -/
inductive RefsField where
  | noRefs
  | listVal (l : List String)
  | strVal (s : String)
deriving DecidableEq, Repr

/-- The `email_data` dict, with the defaults the source supplies at
each `.get`.  An empty string models an absent / falsy value. -/
structure EmailData where
  body_text : String := ""
  body_html : String := ""
  subject : String := ""
  sender_email : String := ""
  thread_id : String := ""
  message_id : String := ""
  in_reply_to : String := ""
  references : RefsField := .noRefs
  recipient_emails : StrOrList := .listVal []
  cc_emails : StrOrList := .listVal []
  bcc_emails : StrOrList := .listVal []
  has_attachments : Bool := false
  attachment_count : Nat := 0
deriving DecidableEq, Repr

/-- The dataclass `CompleteEmailFingerprint`. -/
structure CompleteEmailFingerprint where
  new_content_hash : Option Digest
  quoted_content_hash : Option Digest
  full_content_hash : Digest
  structure_hash : Digest
  thread_hash : Digest
  recipient_set_hash : Digest
  has_meaningful_new_content : Bool
  new_content_intent : Option String
  email_type : String
  parsing_confidence : Rat
  composite_hash : Digest
  normalized_content : String
  content_source : String
  fingerprint_version : Nat := 4
deriving DecidableEq, Repr

/-- `_extract_content` (and the module-level `extract_email_content`):
prefer the stripped plain-text body; else HTML-extract the stripped
HTML body; else the empty string. -/
def extract_content (run : String → HtmlParseOutcome) (e : EmailData) : String :=
  if pyStrip e.body_text ≠ "" then pyStrip e.body_text
  else if pyStrip e.body_html ≠ "" then html_to_text run (pyStrip e.body_html)
  else ""

/-- `r'^(re:\s*|fwd?:\s*|fw:\s*)+'` (IGNORECASE). -/
def subjectPrefixPattern : RE :=
  rePlus (reAlts
    [.seq (ciStrS ("re:")) (.starG wsP),
     .seq (ciStrS ("fw")) (.seq (reOpt (ciChr 'd')) (.seq (chr ':') (.starG wsP))),
     .seq (ciStrS ("fw:")) (.starG wsP)])

/-- `r'\[.*?\]'`. -/
def bracketTagPattern : RE :=
  .seq (chr '[') (.seq (.starL reAnyNoNl) (chr ']'))

/-- `r'\(.*?\)'`. -/
def parenTagPattern : RE :=
  .seq (chr '(') (.seq (.starL reAnyNoNl) (chr ')'))

/-- `_extract_thread_subject`. -/
def extract_thread_subject (subject : String) : String :=
  if subject = "" then ""
  else
    let t := reSubAnchored subjectPrefixPattern [] subject.data
    let t := reSubAll bracketTagPattern [] t
    let t := reSubAll parenTagPattern [] t
    let t := reSubAll wsRunPattern [' '] t
    String.mk ((pyStripL t).map lowerChar)

/-- `_extract_domain`. -/
def extract_domain (email : String) : String :=
  if email = "" || !(email.data.any (fun c => c = '@')) then ""
  else
    let parts := splitCharL '@' (email.data.map lowerChar)
    String.mk (pyStripL ((parts.drop 1).headD []))

/-- Minimal `json` string escaping (`json.dumps` escapes backslash,
double quote and control characters; the control characters that occur
in email subjects are covered). -/
def jsonEscapeChar (c : Char) : List Char :=
  if c = Char.ofNat 92 then [Char.ofNat 92, Char.ofNat 92]
  else if c = Char.ofNat 34 then [Char.ofNat 92, Char.ofNat 34]
  else if c = '\n' then [Char.ofNat 92, 'n']
  else if c = '\t' then [Char.ofNat 92, 't']
  else if c = '\r' then [Char.ofNat 92, 'r']
  else [c]

/-- A `json.dumps` string literal. -/
def jsonStr (s : String) : String :=
  String.mk (Char.ofNat 34 :: s.data.flatMap jsonEscapeChar ++ [Char.ofNat 34])

/-- A `json.dumps` boolean. -/
def jsonBool (b : Bool) : String :=
  if b then "true" else "false"

/-- `json.dumps(structure, sort_keys=True)` for the structure record of
`_generate_structure_hash` (keys in sorted order; default separators). -/
def structureJson (ptype subjectBase senderDomain : String)
    (hasAttachments : Bool) (attachmentCount : Nat) (hasNewContent : Bool) : String :=
  "\x7b\"attachment_count\": " ++ toString attachmentCount ++
  ", \"has_attachments\": " ++ jsonBool hasAttachments ++
  ", \"has_new_content\": " ++ jsonBool hasNewContent ++
  ", \"sender_domain\": " ++ jsonStr senderDomain ++
  ", \"subject_base\": " ++ jsonStr subjectBase ++
  ", \"type\": " ++ jsonStr ptype ++ "\x7d"

/-- `_generate_structure_hash`. -/
def generate_structure_hash (e : EmailData) (parsed : ParsedEmail) : Digest :=
  Digest.str (structureJson parsed.type (extract_thread_subject e.subject)
    (extract_domain e.sender_email) e.has_attachments e.attachment_count
    parsed.new_content_meaningful)

/-- Python string comparison (lexicographic on code points). -/
def listCharLe : List Char → List Char → Bool
  | [], _ => true
  | _ :: _, [] => false
  | a :: as, b :: bs =>
    if a.toNat < b.toNat then true
    else if b.toNat < a.toNat then false
    else listCharLe as bs

/-- Insertion into a sorted list of strings. -/
def insertSorted (x : String) : List String → List String
  | [] => [x]
  | y :: ys => if listCharLe x.data y.data then x :: y :: ys else y :: insertSorted x ys

/-- Python `sorted` on strings (stable insertion sort). -/
def sortStrings : List String → List String
  | [] => []
  | x :: xs => insertSorted x (sortStrings xs)

/-- The `thread_elements` list of `_generate_thread_hash`, in append
order. -/
def threadElements (e : EmailData) : List String :=
  let l1 := if e.thread_id ≠ "" then ["gmail_thread:" ++ e.thread_id] else []
  let l2 := l1 ++ (if e.message_id ≠ "" then ["message_id:" ++ e.message_id] else [])
  let l3 := l2 ++ (if e.in_reply_to ≠ "" then ["in_reply_to:" ++ e.in_reply_to] else [])
  let l4 := l3 ++
    (match e.references with
     | .listVal (r0 :: rest) =>
       ["ref_first:" ++ r0] ++
       (if rest ≠ [] then ["ref_last:" ++ (r0 :: rest).getLast (by simp)] else [])
     | .strVal s => if s ≠ "" then ["references:" ++ s] else []
     | _ => [])
  if l4 = [] then
    let subjectBase := extract_thread_subject e.subject
    let senderDomain := extract_domain e.sender_email
    if subjectBase ≠ "" && senderDomain ≠ "" then
      ["fallback:" ++ subjectBase ++ ":" ++ senderDomain]
    else []
  else l4

/-- `_generate_thread_hash`: join the sorted elements with `'|'` and
hash. -/
def generate_thread_hash (e : EmailData) : Digest :=
  Digest.str (String.intercalate ("|") (sortStrings (threadElements e)))

/-- The `if recipients: ... isinstance(recipients, str)` preamble of
the recipient loop. -/
def recipientsOf : StrOrList → List String
  | .strVal s => if s ≠ "" then [s] else []
  | .listVal l => l

/-- `_generate_recipient_hash`: canonicalize every non-empty recipient,
add the canonical sender tagged `sender:`, deduplicate (a Python
`set`), sort, join with `'|'` and hash. -/
def generate_recipient_hash (e : EmailData) : Digest :=
  let recips :=
    (recipientsOf e.recipient_emails ++ recipientsOf e.cc_emails ++
      recipientsOf e.bcc_emails).filterMap
      (fun r => if r ≠ "" then some (resolve r) else none)
  let withSender :=
    recips ++ (if e.sender_email ≠ "" then ["sender:" ++ resolve e.sender_email] else [])
  Digest.str (String.intercalate ("|") (sortStrings withSender.dedup))

/-- `_generate_composite_hash(*hashes)`: keep the truthy hashes (a hex
digest is never the empty string, so truthiness is `isSome`) and hash
their `'|'`-join. -/
def generate_composite_hash (hashes : List (Option Digest)) : Digest :=
  Digest.combine (hashes.filterMap id)

/-- The content hash of `generate_fingerprints` for `new_content` /
`quoted_content`: only if the parsed part is truthy, and only if its
flattening normalization is truthy. -/
def contentHashOf (part : Option String) : Option Digest :=
  match part with
  | none => none
  | some c =>
    if c = "" then none
    else
      let normalized := ContentNormalizer.normalize c false
      if normalized = "" then none else some (Digest.str normalized)

/-- `CompleteEmailFingerprinter.generate_fingerprints`. -/
def generate_fingerprints (run : String → HtmlParseOutcome) (e : EmailData) :
    CompleteEmailFingerprint :=
  let content := extract_content run e
  let contentSource := if pyStrip e.body_text ≠ "" then "text" else "html"
  let parsed := parse_email_structure content
  let newContentHash := contentHashOf parsed.new_content
  let quotedContentHash := contentHashOf parsed.quoted_content
  let normalizedFull := ContentNormalizer.normalize content true
  let fullContentHash := Digest.str normalizedFull
  let structureHash := generate_structure_hash e parsed
  let threadHash := generate_thread_hash e
  let recipientSetHash := generate_recipient_hash e
  let compositeHash := generate_composite_hash
    [newContentHash, quotedContentHash, some fullContentHash,
     some structureHash, some threadHash, some recipientSetHash]
  { new_content_hash := newContentHash,
    quoted_content_hash := quotedContentHash,
    full_content_hash := fullContentHash,
    structure_hash := structureHash,
    thread_hash := threadHash,
    recipient_set_hash := recipientSetHash,
    has_meaningful_new_content := parsed.new_content_meaningful,
    new_content_intent := parsed.new_content_intent,
    email_type := parsed.type,
    parsing_confidence := parsed.parsing_confidence,
    composite_hash := compositeHash,
    normalized_content := normalizedFull,
    content_source := contentSource,
    fingerprint_version := 4 }

/-!
## Auxiliary notions used by the theorems

Stage views of `normalize` (for congruence arguments), whitespace-shape
invariants (for the idempotence analysis), and the tracking-equivalence
relation on bodies (for the composite-hash claims).
-/

/-- Stages 1–2 of `normalize`: lower-casing followed by
tracking-pattern stripping. -/
def trackStripLowerL (s : List Char) : List Char :=
  stripTrackingL (s.map lowerChar)

/-- Stages 3–8 of `normalize` applied after `trackStripLowerL`. -/
def postTrackL (preserveStructure : Bool) (t : List Char) : List Char :=
  pyStripL (foldVariationsL (wsNormalizeL preserveStructure
    (zwRemoveL (emailSubL (urlSubL t)))))

/-- Two bodies are tracking-equivalent when they agree after
lower-casing and tracking-pattern stripping (the claim's "differ only
in tracking query strings"). -/
def trackEq (a b : String) : Prop :=
  trackStripLowerL a.data = trackStripLowerL b.data

/-- Tracking-equivalence of optional contents (both absent, or both
present and tracking-equivalent). -/
def optTrackEq : Option String → Option String → Prop
  | none, none => True
  | some a, some b => trackEq a b
  | _, _ => False

instance instDecidableTrackEq (a b : String) : Decidable (trackEq a b) :=
  inferInstanceAs (Decidable (trackStripLowerL a.data = trackStripLowerL b.data))

instance instDecidableOptTrackEq : (a b : Option String) → Decidable (optTrackEq a b)
  | none, none => isTrue trivial
  | some a, some b => inferInstanceAs (Decidable (trackEq a b))
  | none, some _ => isFalse id
  | some _, none => isFalse id

/-- A whitespace character that survives flat collapsing must be a
plain space. -/
def okChar (c : Char) : Bool :=
  !isPyWs c || c = ' '

/-- Strings fixed by the flat whitespace collapse: every whitespace
character is a plain space and no two adjacent characters are both
whitespace. -/
def flatFixed : List Char → Bool
  | [] => true
  | [c] => okChar c
  | c1 :: c2 :: rest => okChar c1 && !(isPyWs c1 && isPyWs c2) && flatFixed (c2 :: rest)

/-- No two adjacent plain spaces (the shape that rules out an
occurrence of `smartKeyA`, which contains a double space). -/
def noDbl : List Char → Bool
  | [] => true
  | [_] => true
  | c1 :: c2 :: rest => !(c1 = ' ' && c2 = ' ') && noDbl (c2 :: rest)

/-- Character-wise expansion; `pyReplaceL s [c] r` computes this. -/
def charExpand (c : Char) (r : List Char) (s : List Char) : List Char :=
  s.flatMap (fun d => if d = c then r else [d])

/-- No leading whitespace. -/
def noLeadWs (l : List Char) : Prop :=
  l.dropWhile isPyWs = l

/-- No trailing whitespace. -/
def noTrailWs (l : List Char) : Prop :=
  dropTrailingWs l = l

/-- The invariant each line of a structure-preserving normalization
satisfies. -/
def lineGood (l : List Char) : Prop :=
  flatFixed l = true ∧ noLeadWs l ∧ noTrailWs l ∧ '\n' ∉ l

/-- Removal of trailing empty lines. -/
def dropTrailEmptyLines : List (List Char) → List (List Char)
  | [] => []
  | l :: rest =>
    let r := dropTrailEmptyLines rest
    if r.isEmpty && l.isEmpty then [] else l :: r

/-- The per-line transform of structure-preserving whitespace
normalization: `re.sub(r'\s+', ' ', line.strip())`. -/
def fLine (l : List Char) : List Char :=
  collapseWsL (pyStripL l)

/-- Stage 1 of `normalize` on `String`: `text.lower()`. -/
def lowerStr (s : String) : String := String.mk (s.data.map lowerChar)

/-- Stage 2 of `normalize` on `String`: tracking-pattern stripping. -/
def stripTracking (s : String) : String := String.mk (stripTrackingL s.data)

/-- Stage 3 of `normalize` on `String`: URL placeholder substitution. -/
def urlSub (s : String) : String := String.mk (urlSubL s.data)

/-- Stage 4 of `normalize` on `String`: email placeholder substitution. -/
def emailSub (s : String) : String := String.mk (emailSubL s.data)

/-- Stage 5 of `normalize` on `String`: zero-width removal. -/
def zwRemove (s : String) : String := String.mk (zwRemoveL s.data)

/-- Stage 7 of `normalize` on `String`: the `variations` replacements. -/
def foldVariations (s : String) : String := String.mk (foldVariationsL s.data)

/-!
## Lemmas: `strip` and the flat whitespace collapse
-/

theorem dropWhile_idem (p : Char → Bool) (l : List Char) :
    (l.dropWhile p).dropWhile p = l.dropWhile p := by
  induction l with
  | nil => rfl
  | cons c rest ih =>
    by_cases h : p c = true
    · simp [List.dropWhile_cons, h, ih]
    · simp [List.dropWhile_cons, h]

theorem head?_dropWhile_false (p : Char → Bool) (l : List Char) (c : Char)
    (h : (l.dropWhile p).head? = some c) : p c = false := by
  induction l with
  | nil => simp at h
  | cons d rest ih =>
    by_cases hd : p d = true
    · rw [List.dropWhile_cons, if_pos hd] at h
      exact ih h
    · rw [List.dropWhile_cons, if_neg hd] at h
      simp only [List.head?_cons, Option.some.injEq] at h
      subst h
      simpa using hd

theorem dropWhile_eq_self_of_head (p : Char → Bool) (l : List Char)
    (h : ∀ c, l.head? = some c → p c = false) : l.dropWhile p = l := by
  cases l with
  | nil => rfl
  | cons c rest =>
    rw [List.dropWhile_cons, if_neg]
    simp [h c rfl]

theorem dropTrailingWs_cons (c : Char) (rest : List Char) :
    dropTrailingWs (c :: rest) =
      if (dropTrailingWs rest).isEmpty && isPyWs c then []
      else c :: dropTrailingWs rest := rfl

theorem dropTrailingWs_idem (l : List Char) :
    dropTrailingWs (dropTrailingWs l) = dropTrailingWs l := by
  induction l with
  | nil => rfl
  | cons c rest ih =>
    by_cases h : ((dropTrailingWs rest).isEmpty && isPyWs c) = true
    · rw [dropTrailingWs_cons, if_pos h]
      rfl
    · simp only [dropTrailingWs_cons, if_neg h]
      rw [ih, if_neg h]

theorem dropTrailingWs_head? (l : List Char) :
    dropTrailingWs l = [] ∨ (dropTrailingWs l).head? = l.head? := by
  cases l with
  | cons c rest =>
    by_cases h : ((dropTrailingWs rest).isEmpty && isPyWs c) = true
    · rw [dropTrailingWs_cons, if_pos h]
      exact Or.inl rfl
    · rw [dropTrailingWs_cons, if_neg h]
      exact Or.inr rfl
  | nil => exact Or.inl rfl

theorem noLeadWs_pyStrip (s : List Char) : noLeadWs (pyStripL s) := by
  show (pyStripL s).dropWhile isPyWs = pyStripL s
  apply dropWhile_eq_self_of_head
  intro c hc
  rcases dropTrailingWs_head? (s.dropWhile isPyWs) with h | h
  · rw [show pyStripL s = dropTrailingWs (s.dropWhile isPyWs) from rfl, h] at hc
    simp at hc
  · rw [show pyStripL s = dropTrailingWs (s.dropWhile isPyWs) from rfl, h] at hc
    exact head?_dropWhile_false isPyWs s c hc

theorem noTrailWs_pyStrip (s : List Char) : noTrailWs (pyStripL s) :=
  dropTrailingWs_idem (s.dropWhile isPyWs)

theorem pyStripL_idem (s : List Char) : pyStripL (pyStripL s) = pyStripL s := by
  show dropTrailingWs ((pyStripL s).dropWhile isPyWs) = pyStripL s
  rw [noLeadWs_pyStrip s]
  exact noTrailWs_pyStrip s

theorem pyStripL_eq_self (l : List Char) (h1 : noLeadWs l) (h2 : noTrailWs l) :
    pyStripL l = l := by
  show dropTrailingWs (l.dropWhile isPyWs) = l
  rw [h1]
  exact h2

/-- Normal form of `flatFixed` on a cons cell. -/
theorem flatFixed_cons (c : Char) (l : List Char) :
    flatFixed (c :: l) =
      (okChar c &&
        (match l.head? with
          | some d => !(isPyWs c && isPyWs d)
          | none => true) && flatFixed l) := by
  cases l with
  | nil => simp [flatFixed, okChar]
  | cons d rest => simp [flatFixed]

theorem flatFixed_tail (c : Char) (l : List Char) (h : flatFixed (c :: l) = true) :
    flatFixed l = true := by
  rw [flatFixed_cons] at h
  exact (Bool.and_eq_true_iff.mp h).2

theorem okChar_of_flatFixed_cons (c : Char) (l : List Char)
    (h : flatFixed (c :: l) = true) : okChar c = true := by
  rw [flatFixed_cons] at h
  exact (Bool.and_eq_true_iff.mp (Bool.and_eq_true_iff.mp h).1).1

theorem pair_of_flatFixed_cons (c d : Char) (l : List Char)
    (h : flatFixed (c :: l) = true) (hd : l.head? = some d) :
    (!(isPyWs c && isPyWs d)) = true := by
  rw [flatFixed_cons] at h
  have h2 := (Bool.and_eq_true_iff.mp (Bool.and_eq_true_iff.mp h).1).2
  rw [hd] at h2
  exact h2

theorem collapseWsGo_cons (b : Bool) (c : Char) (rest : List Char) :
    collapseWsGo b (c :: rest) =
      if isPyWs c then
        (if b then collapseWsGo true rest else ' ' :: collapseWsGo true rest)
      else c :: collapseWsGo false rest := rfl

theorem collapseWsGo_shape (l : List Char) :
    flatFixed (collapseWsGo true l) = true ∧
      (∀ c, (collapseWsGo true l).head? = some c → isPyWs c = false) ∧
      flatFixed (collapseWsGo false l) = true := by
  induction l with
  | nil => exact ⟨rfl, by simp [collapseWsGo], rfl⟩
  | cons c rest ih =>
    by_cases hc : isPyWs c = true
    · refine ⟨?_, ?_, ?_⟩
      · rw [collapseWsGo_cons, if_pos hc, if_pos rfl]
        exact ih.1
      · rw [collapseWsGo_cons, if_pos hc, if_pos rfl]
        exact ih.2.1
      · rw [collapseWsGo_cons, if_pos hc, if_neg (by simp)]
        rw [flatFixed_cons]
        refine Bool.and_eq_true_iff.mpr ⟨Bool.and_eq_true_iff.mpr ⟨rfl, ?_⟩, ih.1⟩
        cases hh : (collapseWsGo true rest).head? with
        | none => rfl
        | some d => simp [ih.2.1 d hh]
    · have hcf : isPyWs c = false := by simpa using hc
      have tail : flatFixed (c :: collapseWsGo false rest) = true := by
        rw [flatFixed_cons]
        refine Bool.and_eq_true_iff.mpr ⟨Bool.and_eq_true_iff.mpr ⟨?_, ?_⟩, ih.2.2⟩
        · simp [okChar, hcf]
        · cases hh : (collapseWsGo false rest).head? with
          | none => rfl
          | some d => simp [hcf]
      refine ⟨?_, ?_, ?_⟩
      · rw [collapseWsGo_cons, if_neg (by simp [hcf])]
        exact tail
      · rw [collapseWsGo_cons, if_neg (by simp [hcf])]
        intro d hd
        simp only [List.head?_cons, Option.some.injEq] at hd
        subst hd
        exact hcf
      · rw [collapseWsGo_cons, if_neg (by simp [hcf])]
        exact tail

theorem flatFixed_collapseWsL (s : List Char) : flatFixed (collapseWsL s) = true :=
  (collapseWsGo_shape s).2.2

theorem collapseWsGo_fixed (l : List Char) (h : flatFixed l = true) :
    collapseWsGo false l = l ∧
      ((∀ c, l.head? = some c → isPyWs c = false) → collapseWsGo true l = l) := by
  induction l with
  | nil => exact ⟨rfl, fun _ => rfl⟩
  | cons c rest ih =>
    have hrest := flatFixed_tail c rest h
    have ihr := ih hrest
    by_cases hc : isPyWs c = true
    · have hsp : c = ' ' := by
        have := okChar_of_flatFixed_cons c rest h
        simp [okChar, hc] at this
        exact this
      have hheadrest : ∀ d, rest.head? = some d → isPyWs d = false := by
        intro d hd
        have := pair_of_flatFixed_cons c d rest h hd
        simp [hc] at this
        exact this
      have htrue : collapseWsGo true rest = rest := ihr.2 hheadrest
      constructor
      · rw [collapseWsGo_cons, if_pos hc, if_neg (by simp), htrue, hsp]
      · intro hhead
        have := hhead c rfl
        rw [hc] at this
        exact absurd this (by simp)
    · have hcf : isPyWs c = false := by simpa using hc
      constructor
      · rw [collapseWsGo_cons, if_neg (by simp [hcf]), ihr.1]
      · intro _
        rw [collapseWsGo_cons, if_neg (by simp [hcf]), ihr.1]

theorem flatFixed_dropWhile (p : Char → Bool) (l : List Char)
    (h : flatFixed l = true) : flatFixed (l.dropWhile p) = true := by
  induction l with
  | nil => exact h
  | cons c rest ih =>
    by_cases hc : p c = true
    · rw [List.dropWhile_cons, if_pos hc]
      exact ih (flatFixed_tail c rest h)
    · rw [List.dropWhile_cons, if_neg hc]
      exact h

theorem dropTrailingWs_head?_eq (l : List Char) (h : dropTrailingWs l ≠ []) :
    (dropTrailingWs l).head? = l.head? := by
  rcases dropTrailingWs_head? l with h1 | h1
  · exact absurd h1 h
  · exact h1

theorem flatFixed_dropTrailingWs (l : List Char) (h : flatFixed l = true) :
    flatFixed (dropTrailingWs l) = true := by
  induction l with
  | nil => exact h
  | cons c rest ih =>
    by_cases hc : ((dropTrailingWs rest).isEmpty && isPyWs c) = true
    · rw [dropTrailingWs_cons, if_pos hc]
      rfl
    · rw [dropTrailingWs_cons, if_neg hc]
      have htail := ih (flatFixed_tail c rest h)
      rw [flatFixed_cons]
      refine Bool.and_eq_true_iff.mpr ⟨Bool.and_eq_true_iff.mpr
        ⟨okChar_of_flatFixed_cons c rest h, ?_⟩, htail⟩
      cases hh : (dropTrailingWs rest).head? with
      | none => rfl
      | some d =>
        have hne : dropTrailingWs rest ≠ [] := by
          intro he
          rw [he] at hh
          simp at hh
        rw [dropTrailingWs_head?_eq rest hne] at hh
        exact pair_of_flatFixed_cons c d rest h hh

theorem flatFixed_pyStrip (l : List Char) (h : flatFixed l = true) :
    flatFixed (pyStripL l) = true :=
  flatFixed_dropTrailingWs _ (flatFixed_dropWhile _ _ h)

/-!
## Lemmas: character expansion and `str.replace`
-/

theorem charExpand_cons (c : Char) (r : List Char) (d : Char) (s : List Char) :
    charExpand c r (d :: s) = (if d = c then r else [d]) ++ charExpand c r s := by
  simp [charExpand]

theorem charExpand_nil (c : Char) (r : List Char) : charExpand c r [] = [] := rfl

theorem flatFixed_of_all_nonWs (r : List Char)
    (h : ∀ d ∈ r, isPyWs d = false) : flatFixed r = true := by
  induction r with
  | nil => rfl
  | cons d rest ih =>
    rw [flatFixed_cons]
    refine Bool.and_eq_true_iff.mpr ⟨Bool.and_eq_true_iff.mpr ⟨?_, ?_⟩, ?_⟩
    · simp [okChar, h d (by simp)]
    · cases hh : rest.head? with
      | none => rfl
      | some e => simp [h d (by simp)]
    · exact ih (fun d hd => h d (List.mem_cons_of_mem _ hd))

theorem flatFixed_append (a b : List Char)
    (ha : flatFixed a = true) (hb : flatFixed b = true)
    (hj : ∀ x y, a.getLast? = some x → b.head? = some y →
      (!(isPyWs x && isPyWs y)) = true) :
    flatFixed (a ++ b) = true := by
  induction a with
  | nil => exact hb
  | cons x a' ih =>
    cases a' with
    | nil =>
      rw [List.singleton_append, flatFixed_cons]
      refine Bool.and_eq_true_iff.mpr ⟨Bool.and_eq_true_iff.mpr ⟨?_, ?_⟩, hb⟩
      · exact okChar_of_flatFixed_cons x [] ha
      · cases hh : b.head? with
        | none => rfl
        | some y => exact hj x y rfl hh
    | cons x2 a'' =>
      rw [List.cons_append, flatFixed_cons]
      refine Bool.and_eq_true_iff.mpr ⟨Bool.and_eq_true_iff.mpr ⟨?_, ?_⟩, ?_⟩
      · exact okChar_of_flatFixed_cons x _ ha
      · rw [List.cons_append, List.head?_cons]
        exact pair_of_flatFixed_cons x x2 _ ha rfl
      · exact ih (flatFixed_tail x _ ha)
          (fun u v hu hv => hj u v (by rw [List.getLast?_cons_cons]; exact hu) hv)

theorem charExpand_head?_or (c : Char) (r : List Char) (d : Char) (s : List Char) :
    (charExpand c r (d :: s)).head? =
      if d = c then r.head?.or (charExpand c r s).head? else some d := by
  rw [charExpand_cons]
  by_cases hd : d = c
  · rw [if_pos hd, if_pos hd, List.head?_append]
  · rw [if_neg hd, if_neg hd, List.singleton_append, List.head?_cons]

theorem flatFixed_charExpand (c : Char) (r : List Char) (hrne : r ≠ [])
    (hr : ∀ d ∈ r, isPyWs d = false) :
    ∀ s, flatFixed s = true → flatFixed (charExpand c r s) = true := by
  intro s
  induction s with
  | nil => intro _; rfl
  | cons d s' ih =>
    intro h
    rw [charExpand_cons]
    have htail := ih (flatFixed_tail d s' h)
    have hblk : flatFixed (if d = c then r else [d]) = true := by
      by_cases hd : d = c
      · rw [if_pos hd]
        exact flatFixed_of_all_nonWs r hr
      · rw [if_neg hd]
        show okChar d = true
        exact okChar_of_flatFixed_cons d s' h
    refine flatFixed_append _ _ hblk htail ?_
    intro x y hx hy
    -- the head of the expanded tail
    cases s' with
    | nil =>
      rw [charExpand_nil] at hy
      simp at hy
    | cons e s'' =>
      rw [charExpand_head?_or] at hy
      by_cases he : e = c
      · rw [if_pos he] at hy
        cases hre : r.head? with
        | none =>
          cases r with
          | nil => exact absurd rfl hrne
          | cons r0 rr => simp at hre
        | some r0 =>
          rw [hre] at hy
          have hy0 : y = r0 := by
            simp at hy
            exact hy.symm
          subst hy0
          have hmem : y ∈ r := List.mem_of_mem_head? (by rw [hre]; rfl)
          simp [hr y hmem]
      · rw [if_neg he] at hy
        have hy0 : y = e := by
          simp at hy
          exact hy.symm
        subst hy0
        -- y = e; x is the last of the block
        by_cases hd : d = c
        · rw [if_pos hd] at hx
          have hxmem : x ∈ r := List.mem_of_mem_getLast? (by rw [hx]; rfl)
          simp [hr x hxmem]
        · rw [if_neg hd] at hx
          simp only [List.getLast?_singleton, Option.some.injEq] at hx
          subst hx
          exact pair_of_flatFixed_cons d y (y :: s'') h rfl

theorem noDbl_cons (c : Char) (l : List Char) :
    noDbl (c :: l) =
      ((match l.head? with
        | some d => !(c = ' ' && d = ' ')
        | none => true) && noDbl l) := by
  cases l with
  | nil => simp [noDbl]
  | cons d rest => simp [noDbl]

theorem noDbl_tail (c : Char) (l : List Char) (h : noDbl (c :: l) = true) :
    noDbl l = true := by
  rw [noDbl_cons] at h
  exact (Bool.and_eq_true_iff.mp h).2

theorem noDbl_of_flatFixed (l : List Char) (h : flatFixed l = true) :
    noDbl l = true := by
  induction l with
  | nil => rfl
  | cons c rest ih =>
    rw [noDbl_cons]
    refine Bool.and_eq_true_iff.mpr ⟨?_, ih (flatFixed_tail c rest h)⟩
    cases hh : rest.head? with
    | none => rfl
    | some d =>
      have := pair_of_flatFixed_cons c d rest h hh
      by_cases hcs : c = ' '
      · by_cases hds : d = ' '
        · subst hcs; subst hds
          simp [isPyWs] at this
        · simp [hds]
      · simp [hcs]

theorem noDbl_append_left (a b : List Char) (h : noDbl (a ++ b) = true) :
    noDbl a = true := by
  induction a with
  | nil => rfl
  | cons c a' ih =>
    rw [List.cons_append] at h
    rw [noDbl_cons]
    refine Bool.and_eq_true_iff.mpr ⟨?_, ih (noDbl_tail c _ h)⟩
    cases hh : a'.head? with
    | none => rfl
    | some d =>
      rw [noDbl_cons] at h
      have h1 := (Bool.and_eq_true_iff.mp h).1
      have : (a' ++ b).head? = some d := by
        rw [List.head?_append, hh]
        rfl
      rw [this] at h1
      exact h1

theorem noDbl_smartKeyA : noDbl smartKeyA = false := by decide

theorem pyReplaceAux_smartKeyA_noDbl (r : List Char) :
    ∀ (fuel : Nat) (s : List Char), noDbl s = true →
      pyReplaceAux smartKeyA r fuel s = s := by
  intro fuel
  induction fuel with
  | zero => intro s _; cases s <;> rfl
  | succ fuel ih =>
    intro s hs
    cases s with
    | nil => rfl
    | cons c rest =>
      show (if smartKeyA.isPrefixOf (c :: rest) then _ else _) = _
      rw [if_neg]
      · rw [ih rest (noDbl_tail c rest hs)]
      · intro hpre
        rcases List.isPrefixOf_iff_prefix.mp hpre with ⟨t, ht⟩
        have : noDbl smartKeyA = true := by
          apply noDbl_append_left smartKeyA t
          rw [ht]
          exact hs
        rw [noDbl_smartKeyA] at this
        exact absurd this (by simp)

theorem pyReplaceAux_single_self (c : Char) :
    ∀ (fuel : Nat) (s : List Char), pyReplaceAux [c] [c] fuel s = s := by
  intro fuel
  induction fuel with
  | zero => intro s; cases s <;> rfl
  | succ fuel ih =>
    intro s
    cases s with
    | nil => rfl
    | cons d rest =>
      show (if [c].isPrefixOf (d :: rest) then _ else _) = _
      by_cases hd : c = d
      · subst hd
        rw [if_pos (by simp [List.isPrefixOf])]
        show [c] ++ pyReplaceAux [c] [c] fuel ((c :: rest).drop 1) = c :: rest
        rw [List.drop_one, List.tail_cons, ih rest]
        rfl
      · rw [if_neg (by simp [List.isPrefixOf, hd]), ih rest]

theorem pyReplaceAux_single_charExpand (c : Char) (r : List Char) :
    ∀ (fuel : Nat) (s : List Char), s.length ≤ fuel →
      pyReplaceAux [c] r fuel s = charExpand c r s := by
  intro fuel
  induction fuel with
  | zero =>
    intro s hs
    cases s with
    | nil => rfl
    | cons d rest => simp at hs
  | succ fuel ih =>
    intro s hs
    cases s with
    | nil => rfl
    | cons d rest =>
      rw [charExpand_cons]
      show (if [c].isPrefixOf (d :: rest) then _ else _) = _
      by_cases hd : d = c
      · rw [if_pos (by simp [List.isPrefixOf, hd]), if_pos hd]
        show r ++ pyReplaceAux [c] r fuel ((d :: rest).drop 1) = r ++ charExpand c r rest
        rw [List.drop_one, List.tail_cons,
          ih rest (by simpa using Nat.le_of_succ_le_succ hs)]
      · rw [if_neg (by simp [List.isPrefixOf]; exact fun h => absurd h.symm hd),
          if_neg hd, ih rest (by simpa using Nat.le_of_succ_le_succ hs)]
        rfl

theorem foldVariationsL_eq_charExpand (s : List Char) (h : noDbl s = true) :
    foldVariationsL s =
      charExpand (Char.ofNat 0x2026) ['.', '.', '.']
        (charExpand (Char.ofNat 0x2014) ['-']
          (charExpand (Char.ofNat 0x2013) ['-'] s)) := by
  show pyReplaceL (pyReplaceL (pyReplaceL (pyReplaceL (pyReplaceL s smartKeyA _)
    [Char.ofNat 34] [Char.ofNat 34]) [Char.ofNat 0x2013] ['-'])
    [Char.ofNat 0x2014] ['-']) [Char.ofNat 0x2026] ['.', '.', '.'] = _
  rw [show pyReplaceL s smartKeyA [Char.ofNat 39] =
      pyReplaceAux smartKeyA [Char.ofNat 39] (s.length + 1) s from rfl,
    pyReplaceAux_smartKeyA_noDbl _ _ s h]
  rw [show pyReplaceL s [Char.ofNat 34] [Char.ofNat 34] =
      pyReplaceAux [Char.ofNat 34] [Char.ofNat 34] (s.length + 1) s from rfl,
    pyReplaceAux_single_self _ _ s]
  rw [show pyReplaceL s [Char.ofNat 0x2013] ['-'] =
      pyReplaceAux [Char.ofNat 0x2013] ['-'] (s.length + 1) s from rfl,
    pyReplaceAux_single_charExpand _ _ _ s (Nat.le_succ _)]
  rw [show pyReplaceL (charExpand (Char.ofNat 0x2013) ['-'] s) [Char.ofNat 0x2014] ['-'] =
      pyReplaceAux [Char.ofNat 0x2014] ['-']
        ((charExpand (Char.ofNat 0x2013) ['-'] s).length + 1)
        (charExpand (Char.ofNat 0x2013) ['-'] s) from rfl,
    pyReplaceAux_single_charExpand _ _ _ _ (Nat.le_succ _)]
  rw [show ∀ (t : List Char), pyReplaceL t [Char.ofNat 0x2026] ['.', '.', '.'] =
      pyReplaceAux [Char.ofNat 0x2026] ['.', '.', '.'] (t.length + 1) t from fun _ => rfl,
    pyReplaceAux_single_charExpand _ _ _ _ (Nat.le_succ _)]

/-- `foldVariationsL` preserves the flat-collapsed shape. -/
theorem flatFixed_foldVariations (t : List Char) (h : flatFixed t = true) :
    flatFixed (foldVariationsL t) = true := by
  rw [foldVariationsL_eq_charExpand t (noDbl_of_flatFixed t h)]
  apply flatFixed_charExpand _ _ (by simp) (by decide)
  apply flatFixed_charExpand _ _ (by simp) (by decide)
  apply flatFixed_charExpand _ _ (by simp) (by decide)
  exact h

/-- The whitespace stage of flat-mode `normalize` is stable on the
function's own image. -/
theorem wsStage_stable_flat (z : List Char) :
    collapseWsL (pyStripL (foldVariationsL (collapseWsL z))) =
      pyStripL (foldVariationsL (collapseWsL z)) := by
  have h1 : flatFixed (collapseWsL z) = true := flatFixed_collapseWsL z
  have h2 : flatFixed (pyStripL (foldVariationsL (collapseWsL z))) = true :=
    flatFixed_pyStrip _ (flatFixed_foldVariations _ h1)
  exact (collapseWsGo_fixed _ h2).1

/-!
## Lemmas: line splitting and joining
-/

theorem splitCharL_cons (sep c : Char) (rest : List Char) :
    splitCharL sep (c :: rest) =
      if c = sep then [] :: splitCharL sep rest
      else
        match splitCharL sep rest with
        | [] => [[c]]
        | l :: ls => (c :: l) :: ls := rfl

theorem splitCharL_ne_nil (sep : Char) (s : List Char) : splitCharL sep s ≠ [] := by
  cases s with
  | nil => simp [splitCharL]
  | cons c rest =>
    rw [splitCharL_cons]
    by_cases h : c = sep
    · simp [h]
    · rw [if_neg h]
      cases splitCharL sep rest <;> simp

theorem mem_splitCharL_not_sep (sep : Char) (s : List Char) :
    ∀ l ∈ splitCharL sep s, sep ∉ l := by
  induction s with
  | nil =>
    intro l hl
    simp [splitCharL] at hl
    simp [hl]
  | cons c rest ih =>
    intro l hl
    rw [splitCharL_cons] at hl
    by_cases h : c = sep
    · rw [if_pos h] at hl
      rcases List.mem_cons.mp hl with h1 | h1
      · simp [h1]
      · exact ih l h1
    · rw [if_neg h] at hl
      cases hsp : splitCharL sep rest with
      | nil => exact absurd hsp (splitCharL_ne_nil sep rest)
      | cons l0 ls0 =>
        rw [hsp] at hl
        rcases List.mem_cons.mp hl with h1 | h1
        · subst h1
          intro hmem
          rcases List.mem_cons.mp hmem with h2 | h2
          · exact h h2.symm
          · exact ih l0 (by rw [hsp]; exact List.mem_cons_self _ _) h2
        · exact ih l (by rw [hsp]; exact List.mem_cons_of_mem _ h1)

theorem joinNlL_cons (l : List Char) (ls : List (List Char)) :
    joinNlL (l :: ls) = if ls.isEmpty then l else l ++ '\n' :: joinNlL ls := by
  cases ls with
  | nil => simp [joinNlL]
  | cons l2 ls2 => simp [joinNlL]

theorem splitNl_single (l : List Char) (h : '\n' ∉ l) :
    splitCharL '\n' l = [l] := by
  induction l with
  | nil => rfl
  | cons c rest ih =>
    rw [splitCharL_cons, if_neg (by intro hc; exact h (by rw [hc]; simp)),
      ih (fun hm => h (List.mem_cons_of_mem _ hm))]

theorem splitNl_append (l t : List Char) (h : '\n' ∉ l) :
    splitCharL '\n' (l ++ '\n' :: t) = l :: splitCharL '\n' t := by
  induction l with
  | nil => simp [splitCharL_cons]
  | cons c rest ih =>
    rw [List.cons_append, splitCharL_cons,
      if_neg (by intro hc; exact h (by rw [hc]; simp)),
      ih (fun hm => h (List.mem_cons_of_mem _ hm))]

theorem splitNl_joinNl (ls : List (List Char)) (hne : ls ≠ [])
    (h : ∀ l ∈ ls, '\n' ∉ l) :
    splitCharL '\n' (joinNlL ls) = ls := by
  induction ls with
  | nil => exact absurd rfl hne
  | cons l ls' ih =>
    cases ls' with
    | nil =>
      show splitCharL '\n' l = [l]
      exact splitNl_single l (h l (List.mem_cons_self _ _))
    | cons l2 ls'' =>
      rw [joinNlL_cons, if_neg (by simp)]
      rw [splitNl_append l _ (h l (List.mem_cons_self _ _))]
      rw [ih (by simp) (fun x hx => h x (List.mem_cons_of_mem _ hx))]

/-!
## Lemmas: edge-whitespace shapes of the collapse
-/

theorem noLeadWs_cons_head (c : Char) (l : List Char) (h : noLeadWs (c :: l)) :
    isPyWs c = false := by
  by_cases hc : isPyWs c = true
  · exfalso
    have h1 : (c :: l).dropWhile isPyWs = c :: l := h
    rw [List.dropWhile_cons, if_pos hc] at h1
    have h2 : (l.dropWhile isPyWs).length ≤ l.length :=
      (List.dropWhile_sublist isPyWs).length_le
    rw [h1] at h2
    simp at h2
  · simpa using hc

theorem noLeadWs_of_headFalse (c : Char) (l : List Char) (h : isPyWs c = false) :
    noLeadWs (c :: l) := by
  show (c :: l).dropWhile isPyWs = c :: l
  rw [List.dropWhile_cons, if_neg (by simp [h])]

theorem noTrailWs_cons_elim (c : Char) (rest : List Char)
    (h : noTrailWs (c :: rest)) :
    noTrailWs rest ∧ ((dropTrailingWs rest).isEmpty && isPyWs c) = false := by
  have h1 : dropTrailingWs (c :: rest) = c :: rest := h
  rw [dropTrailingWs_cons] at h1
  by_cases hc : ((dropTrailingWs rest).isEmpty && isPyWs c) = true
  · rw [if_pos hc] at h1
    exact absurd h1.symm (by simp)
  · rw [if_neg hc] at h1
    have h2 : dropTrailingWs rest = rest := by
      injection h1
    exact ⟨h2, by simpa using hc⟩

theorem noTrailWs_cons_intro (c : Char) (rest : List Char)
    (h1 : noTrailWs rest)
    (h2 : ((dropTrailingWs rest).isEmpty && isPyWs c) = false) :
    noTrailWs (c :: rest) := by
  show dropTrailingWs (c :: rest) = c :: rest
  rw [dropTrailingWs_cons, if_neg (by simp [h2]), h1]

theorem collapseWsGo_ne_nil (t : List Char) (b : Bool)
    (hnt : noTrailWs t) (hne : t ≠ []) : collapseWsGo b t ≠ [] := by
  induction t generalizing b with
  | nil => exact absurd rfl hne
  | cons c rest ih =>
    rcases noTrailWs_cons_elim c rest hnt with ⟨h1, h2⟩
    by_cases hc : isPyWs c = true
    · have hre : rest ≠ [] := by
        intro he
        subst he
        simp [dropTrailingWs, hc] at h2
      rw [collapseWsGo_cons, if_pos hc]
      by_cases hb : b = true
      · rw [if_pos hb]
        exact ih true h1 hre
      · rw [if_neg hb]
        simp
    · have hcf : isPyWs c = false := by simpa using hc
      rw [collapseWsGo_cons, if_neg (by simp [hcf])]
      simp

theorem noTrailWs_collapseWsGo (t : List Char) (b : Bool) (hnt : noTrailWs t) :
    noTrailWs (collapseWsGo b t) := by
  induction t generalizing b with
  | nil => exact hnt
  | cons c rest ih =>
    rcases noTrailWs_cons_elim c rest hnt with ⟨h1, h2⟩
    by_cases hc : isPyWs c = true
    · have hre : rest ≠ [] := by
        intro he
        subst he
        simp [dropTrailingWs, hc] at h2
      rw [collapseWsGo_cons, if_pos hc]
      by_cases hb : b = true
      · rw [if_pos hb]
        exact ih true h1
      · rw [if_neg hb]
        apply noTrailWs_cons_intro
        · exact ih true h1
        · have := collapseWsGo_ne_nil rest true h1 hre
          rw [ih true h1]
          simp [List.isEmpty_iff, this]
    · have hcf : isPyWs c = false := by simpa using hc
      rw [collapseWsGo_cons, if_neg (by simp [hcf])]
      apply noTrailWs_cons_intro
      · exact ih false h1
      · simp [hcf]

theorem noLeadWs_collapseWsL (t : List Char) (h : noLeadWs t) :
    noLeadWs (collapseWsL t) := by
  cases t with
  | nil => exact h
  | cons c rest =>
    have hcf := noLeadWs_cons_head c rest h
    show noLeadWs (collapseWsGo false (c :: rest))
    rw [collapseWsGo_cons, if_neg (by simp [hcf])]
    exact noLeadWs_of_headFalse c _ hcf

theorem mem_collapseWsGo (t : List Char) (b : Bool) (d : Char)
    (h : d ∈ collapseWsGo b t) : d = ' ' ∨ d ∈ t := by
  induction t generalizing b with
  | nil => exact absurd h (by simp [collapseWsGo])
  | cons c rest ih =>
    rw [collapseWsGo_cons] at h
    by_cases hc : isPyWs c = true
    · rw [if_pos hc] at h
      by_cases hb : b = true
      · rw [if_pos hb] at h
        rcases ih true h with h1 | h1
        · exact Or.inl h1
        · exact Or.inr (List.mem_cons_of_mem _ h1)
      · rw [if_neg hb] at h
        rcases List.mem_cons.mp h with h1 | h1
        · exact Or.inl h1
        · rcases ih true h1 with h2 | h2
          · exact Or.inl h2
          · exact Or.inr (List.mem_cons_of_mem _ h2)
    · rw [if_neg (by simpa using hc)] at h
      rcases List.mem_cons.mp h with h1 | h1
      · exact Or.inr (by rw [h1]; exact List.mem_cons_self _ _)
      · rcases ih false h1 with h2 | h2
        · exact Or.inl h2
        · exact Or.inr (List.mem_cons_of_mem _ h2)

theorem dropTrailingWs_sublist (l : List Char) : (dropTrailingWs l).Sublist l := by
  induction l with
  | nil => exact List.Sublist.refl []
  | cons c rest ih =>
    rw [dropTrailingWs_cons]
    by_cases hc : ((dropTrailingWs rest).isEmpty && isPyWs c) = true
    · rw [if_pos hc]
      exact List.nil_sublist _
    · rw [if_neg hc]
      exact ih.cons₂ c

theorem mem_pyStripL (l : List Char) (d : Char) (h : d ∈ pyStripL l) : d ∈ l :=
  (List.dropWhile_sublist isPyWs).subset ((dropTrailingWs_sublist _).subset h)

theorem fLine_lineGood (l : List Char) (h : '\n' ∉ l) : lineGood (fLine l) := by
  refine ⟨flatFixed_collapseWsL _, ?_, ?_, ?_⟩
  · exact noLeadWs_collapseWsL _ (noLeadWs_pyStrip l)
  · exact noTrailWs_collapseWsGo _ false (noTrailWs_pyStrip l)
  · intro hmem
    rcases mem_collapseWsGo _ false '\n' hmem with h1 | h1
    · exact absurd h1 (by decide)
    · exact h (mem_pyStripL l '\n' h1)

theorem fLine_fixed (l : List Char) (h : lineGood l) : fLine l = l := by
  show collapseWsL (pyStripL l) = l
  rw [pyStripL_eq_self l h.2.1 h.2.2.1]
  exact (collapseWsGo_fixed l h.1).1

/-!
## Lemmas: `strip` and `noDbl` across joined lines
-/

theorem noDbl_append (a b : List Char)
    (ha : noDbl a = true) (hb : noDbl b = true)
    (hj : ∀ x y, a.getLast? = some x → b.head? = some y →
      (!(x = ' ' && y = ' ')) = true) :
    noDbl (a ++ b) = true := by
  induction a with
  | nil => exact hb
  | cons x a' ih =>
    cases a' with
    | nil =>
      rw [List.singleton_append, noDbl_cons]
      refine Bool.and_eq_true_iff.mpr ⟨?_, hb⟩
      cases hh : b.head? with
      | none => rfl
      | some y => exact hj x y rfl hh
    | cons x2 a'' =>
      rw [List.cons_append, noDbl_cons]
      refine Bool.and_eq_true_iff.mpr ⟨?_, ?_⟩
      · rw [List.cons_append, List.head?_cons]
        rw [noDbl_cons] at ha
        have := (Bool.and_eq_true_iff.mp ha).1
        rw [List.head?_cons] at this
        exact this
      · exact ih (noDbl_tail x _ ha)
          (fun u v hu hv => hj u v (by rw [List.getLast?_cons_cons]; exact hu) hv)

theorem noDbl_joinNl (ls : List (List Char))
    (h : ∀ l ∈ ls, noDbl l = true) : noDbl (joinNlL ls) = true := by
  induction ls with
  | nil => rfl
  | cons l ls' ih =>
    cases ls' with
    | nil => exact h l (List.mem_cons_self _ _)
    | cons l2 ls'' =>
      rw [joinNlL_cons, if_neg (by simp)]
      apply noDbl_append l _ (h l (List.mem_cons_self _ _))
      · rw [noDbl_cons]
        refine Bool.and_eq_true_iff.mpr ⟨?_, ih (fun x hx => h x (List.mem_cons_of_mem _ hx))⟩
        cases hh : (joinNlL (l2 :: ls'')).head? with
        | none => rfl
        | some y => simp
      · intro x y _ hy
        rw [List.head?_cons] at hy
        have hy2 : y = '\n' := by
          injection hy with hh
          exact hh.symm
        rw [hy2]
        simp

theorem dropTrailingWs_append (a b : List Char) :
    dropTrailingWs (a ++ b) =
      if dropTrailingWs b = [] then dropTrailingWs a
      else a ++ dropTrailingWs b := by
  induction a with
  | nil =>
    by_cases hb : dropTrailingWs b = []
    · rw [List.nil_append, if_pos hb, hb]
      rfl
    · rw [List.nil_append, if_neg hb, List.nil_append]
  | cons c a' ih =>
    rw [List.cons_append, dropTrailingWs_cons, ih]
    by_cases hb : dropTrailingWs b = []
    · rw [if_pos hb, if_pos hb, dropTrailingWs_cons]
    · rw [if_neg hb, if_neg hb, if_neg]
      · rw [List.cons_append]
      · have : a' ++ dropTrailingWs b ≠ [] := by
          simp [hb]
        simp [List.isEmpty_iff, this]

theorem dropWhile_joinNl (ls : List (List Char))
    (h : ∀ l ∈ ls, noLeadWs l) :
    (joinNlL ls).dropWhile isPyWs = joinNlL (ls.dropWhile List.isEmpty) := by
  induction ls with
  | nil => rfl
  | cons l ls' ih =>
    by_cases hle : l = []
    · subst hle
      cases ls' with
      | nil => rfl
      | cons l2 ls'' =>
        rw [joinNlL_cons, if_neg (by simp), List.nil_append,
          List.dropWhile_cons, if_pos (by decide),
          ih (fun x hx => h x (List.mem_cons_of_mem _ hx))]
        rw [show List.dropWhile List.isEmpty ([] :: l2 :: ls'') =
          List.dropWhile List.isEmpty (l2 :: ls'') from by
            rw [List.dropWhile_cons]
            simp]
    · obtain ⟨c, rest, hl⟩ : ∃ c rest, l = c :: rest := by
        cases l with
        | nil => exact absurd rfl hle
        | cons c rest => exact ⟨c, rest, rfl⟩
      have hcf : isPyWs c = false := by
        apply noLeadWs_cons_head c rest
        rw [← hl]
        exact h l (List.mem_cons_self _ _)
      have step1 : (joinNlL (l :: ls')).dropWhile isPyWs = joinNlL (l :: ls') := by
        apply dropWhile_eq_self_of_head
        intro d hd
        rw [joinNlL_cons] at hd
        by_cases hls : ls'.isEmpty = true
        · rw [if_pos hls, hl, List.head?_cons] at hd
          have hd2 : d = c := by
            injection hd with hh
            exact hh.symm
          rw [hd2]
          exact hcf
        · rw [if_neg hls, hl, List.cons_append, List.head?_cons] at hd
          have hd2 : d = c := by
            injection hd with hh
            exact hh.symm
          rw [hd2]
          exact hcf
      rw [step1, List.dropWhile_cons, if_neg (by simp [hl])]

theorem dropTrailEmptyLines_cons (l : List Char) (rest : List (List Char)) :
    dropTrailEmptyLines (l :: rest) =
      if (dropTrailEmptyLines rest).isEmpty && l.isEmpty then []
      else l :: dropTrailEmptyLines rest := rfl

theorem joinNl_dte_nil_iff (ls : List (List Char)) :
    joinNlL (dropTrailEmptyLines ls) = [] ↔ dropTrailEmptyLines ls = [] := by
  constructor
  · intro h
    cases hd : dropTrailEmptyLines ls with
    | nil => rfl
    | cons l r =>
      exfalso
      cases r with
      | nil =>
        rw [hd] at h
        have hle : l = [] := h
        -- a singleton produced by dropTrailEmptyLines is a nonempty line
        revert hd
        rw [hle]
        intro hd
        clear h
        induction ls with
        | nil => simp [dropTrailEmptyLines] at hd
        | cons l0 rest ih =>
          rw [dropTrailEmptyLines_cons] at hd
          by_cases hc : ((dropTrailEmptyLines rest).isEmpty && l0.isEmpty) = true
          · rw [if_pos hc] at hd
            simp at hd
          · rw [if_neg hc] at hd
            have h1 : l0 = [] := by injection hd
            have h2 : dropTrailEmptyLines rest = [] := by injection hd
            rw [h1, h2] at hc
            simp at hc
      | cons l2 r' =>
        rw [hd, joinNlL_cons, if_neg (by simp)] at h
        simp at h
  · intro h
    rw [h]
    rfl

theorem dropTrailing_joinNl (ls : List (List Char))
    (h : ∀ l ∈ ls, noTrailWs l) :
    dropTrailingWs (joinNlL ls) = joinNlL (dropTrailEmptyLines ls) := by
  induction ls with
  | nil => rfl
  | cons l ls' ih =>
    cases ls' with
    | nil =>
      show dropTrailingWs l = joinNlL (dropTrailEmptyLines [l])
      rw [h l (List.mem_cons_self _ _), dropTrailEmptyLines_cons]
      by_cases hle : l.isEmpty = true
      · rw [if_pos (by simp [dropTrailEmptyLines, hle])]
        have hl0 : l = [] := by simpa using hle
        rw [hl0]
        rfl
      · rw [if_neg (by simp [hle])]
        rfl
    | cons l2 ls'' =>
      rw [joinNlL_cons, if_neg (by simp),
        dropTrailingWs_append l ('\n' :: joinNlL (l2 :: ls''))]
      have ihr := ih (fun x hx => h x (List.mem_cons_of_mem _ hx))
      by_cases hc : dropTrailingWs (joinNlL (l2 :: ls'')) = []
      · have hdt : dropTrailingWs ('\n' :: joinNlL (l2 :: ls'')) = [] := by
          rw [dropTrailingWs_cons, if_pos]
          simp [List.isEmpty_iff, hc]
          decide
        rw [if_pos hdt, h l (List.mem_cons_self _ _)]
        have hdte : dropTrailEmptyLines (l2 :: ls'') = [] :=
          (joinNl_dte_nil_iff _).mp (by rw [← ihr]; exact hc)
        rw [dropTrailEmptyLines_cons, hdte]
        by_cases hle : l.isEmpty = true
        · rw [if_pos (by simp [hle])]
          have hl0 : l = [] := by simpa using hle
          rw [hl0]
          rfl
        · rw [if_neg (by simp [hle])]
          rfl
      · have hdtne : dropTrailingWs ('\n' :: joinNlL (l2 :: ls'')) =
            '\n' :: dropTrailingWs (joinNlL (l2 :: ls'')) := by
          rw [dropTrailingWs_cons, if_neg (by simp [List.isEmpty_iff, hc])]
        rw [if_neg (by rw [hdtne]; simp), hdtne, ihr]
        have hdte : dropTrailEmptyLines (l2 :: ls'') ≠ [] := by
          intro he
          apply hc
          rw [ihr, he]
          rfl
        have hR : dropTrailEmptyLines (l :: l2 :: ls'') =
            l :: dropTrailEmptyLines (l2 :: ls'') := by
          rw [dropTrailEmptyLines_cons,
            if_neg (by simp [List.isEmpty_iff, hdte])]
        rw [hR, joinNlL_cons, if_neg (by simp [List.isEmpty_iff, hdte])]

theorem mem_dropTrailEmptyLines (ls : List (List Char)) (l : List Char)
    (h : l ∈ dropTrailEmptyLines ls) : l ∈ ls := by
  induction ls with
  | nil => exact absurd h (by simp [dropTrailEmptyLines])
  | cons l0 rest ih =>
    rw [dropTrailEmptyLines_cons] at h
    by_cases hc : ((dropTrailEmptyLines rest).isEmpty && l0.isEmpty) = true
    · rw [if_pos hc] at h
      simp at h
    · rw [if_neg hc] at h
      rcases List.mem_cons.mp h with h1 | h1
      · rw [h1]
        exact List.mem_cons_self _ _
      · exact List.mem_cons_of_mem _ (ih h1)

/-!
## Lemmas: character expansion against the line invariants
-/

theorem mem_charExpand (c : Char) (r s : List Char) (d : Char)
    (h : d ∈ charExpand c r s) : d ∈ r ∨ d ∈ s := by
  induction s with
  | nil => exact absurd h (by simp [charExpand])
  | cons e s' ih =>
    rw [charExpand_cons] at h
    rcases List.mem_append.mp h with h1 | h1
    · by_cases he : e = c
      · rw [if_pos he] at h1
        exact Or.inl h1
      · rw [if_neg he] at h1
        simp at h1
        exact Or.inr (by rw [h1]; exact List.mem_cons_self _ _)
    · rcases ih h1 with h2 | h2
      · exact Or.inl h2
      · exact Or.inr (List.mem_cons_of_mem _ h2)

theorem charExpand_ne_nil (c : Char) (r s : List Char)
    (hr : r ≠ []) (hs : s ≠ []) : charExpand c r s ≠ [] := by
  cases s with
  | nil => exact absurd rfl hs
  | cons e s' =>
    rw [charExpand_cons]
    by_cases he : e = c
    · rw [if_pos he]
      simp [hr]
    · rw [if_neg he]
      simp

theorem noTrailWs_iff_last (l : List Char) :
    noTrailWs l ↔ ∀ d, l.getLast? = some d → isPyWs d = false := by
  induction l with
  | nil => simp [noTrailWs, dropTrailingWs]
  | cons c rest ih =>
    constructor
    · intro h d hd
      rcases noTrailWs_cons_elim c rest h with ⟨h1, h2⟩
      cases rest with
      | nil =>
        simp at hd
        subst hd
        simp [dropTrailingWs] at h2
        exact h2
      | cons c2 rest2 =>
        rw [List.getLast?_cons_cons] at hd
        exact (ih.mp h1) d hd
    · intro h
      cases rest with
      | nil =>
        have := h c (by simp)
        show dropTrailingWs [c] = [c]
        simp [dropTrailingWs, this]
      | cons c2 rest2 =>
        have h1 : noTrailWs (c2 :: rest2) := by
          apply ih.mpr
          intro d hd
          exact h d (by rw [List.getLast?_cons_cons]; exact hd)
        apply noTrailWs_cons_intro c _ h1
        rw [h1]
        simp [List.isEmpty_iff]

theorem noLeadWs_charExpand (c : Char) (r s : List Char) (hrne : r ≠ [])
    (hr : ∀ d ∈ r, isPyWs d = false) (hs : noLeadWs s) :
    noLeadWs (charExpand c r s) := by
  cases s with
  | nil => exact hs
  | cons e s' =>
    have hef := noLeadWs_cons_head e s' hs
    apply dropWhile_eq_self_of_head
    intro d hd
    rw [charExpand_head?_or] at hd
    by_cases he : e = c
    · rw [if_pos he] at hd
      cases hre : r.head? with
      | none =>
        exfalso
        cases r with
        | nil => exact hrne rfl
        | cons r0 rr => simp at hre
      | some r0 =>
        rw [hre] at hd
        have hd2 : d = r0 := by
          simp at hd
          exact hd.symm
        subst hd2
        exact hr d (List.mem_of_mem_head? (by rw [hre]; rfl))
    · rw [if_neg he] at hd
      have hd2 : d = e := by
        simp at hd
        exact hd.symm
      subst hd2
      exact hef

theorem noTrailWs_charExpand (c : Char) (r s : List Char) (hrne : r ≠ [])
    (hr : ∀ d ∈ r, isPyWs d = false) (hs : noTrailWs s) :
    noTrailWs (charExpand c r s) := by
  rw [noTrailWs_iff_last]
  induction s with
  | nil =>
    intro d hd
    simp [charExpand] at hd
  | cons e s' ih =>
    intro d hd
    rw [charExpand_cons] at hd
    cases hse : s' with
    | nil =>
      rw [hse] at hd
      rw [charExpand_nil, List.append_nil] at hd
      by_cases he : e = c
      · rw [if_pos he] at hd
        exact hr d (List.mem_of_mem_getLast? (by rw [hd]; rfl))
      · rw [if_neg he] at hd
        have hd3 : d = e := by
          have hd2 : some d = some e := by
            rw [← hd]
            simp
          injection hd2
        rw [hse] at hs
        rw [hd3]
        exact ((noTrailWs_iff_last [e]).mp hs) e (by simp)
    | cons e2 s'' =>
      have hne : charExpand c r s' ≠ [] :=
        charExpand_ne_nil c r s' hrne (by rw [hse]; simp)
      rw [List.getLast?_append_of_ne_nil _ hne] at hd
      have hs' : noTrailWs s' := by
        rw [← hse] at *
        rcases noTrailWs_cons_elim e s' hs with ⟨h1, _⟩
        exact h1
      exact ih hs' d hd

theorem not_mem_charExpand (c : Char) (r s : List Char) (x : Char)
    (hxr : x ∉ r) (hxs : x ∉ s) : x ∉ charExpand c r s := by
  intro h
  rcases mem_charExpand c r s x h with h1 | h1
  · exact hxr h1
  · exact hxs h1

theorem lineGood_charExpand (c : Char) (r : List Char) (hrne : r ≠ [])
    (hr : ∀ d ∈ r, isPyWs d = false) (hnl : '\n' ∉ r)
    (l : List Char) (h : lineGood l) : lineGood (charExpand c r l) := by
  refine ⟨flatFixed_charExpand c r hrne hr l h.1, ?_, ?_, ?_⟩
  · exact noLeadWs_charExpand c r l hrne hr h.2.1
  · exact noTrailWs_charExpand c r l hrne hr h.2.2.1
  · exact not_mem_charExpand c r l '\n' hnl h.2.2.2

theorem charExpand_append (c : Char) (r a b : List Char) :
    charExpand c r (a ++ b) = charExpand c r a ++ charExpand c r b := by
  simp [charExpand]

theorem charExpand_joinNl (c : Char) (r : List Char) (hc : c ≠ '\n')
    (ls : List (List Char)) :
    charExpand c r (joinNlL ls) = joinNlL (ls.map (charExpand c r)) := by
  induction ls with
  | nil => rfl
  | cons l ls' ih =>
    cases ls' with
    | nil => rfl
    | cons l2 ls'' =>
      rw [joinNlL_cons, if_neg (by simp), charExpand_append, charExpand_cons,
        if_neg (by intro hx; exact hc hx.symm), ih]
      rw [show List.map (charExpand c r) (l :: l2 :: ls'') =
        charExpand c r l :: List.map (charExpand c r) (l2 :: ls'') from rfl]
      rw [joinNlL_cons, if_neg (by simp)]
      simp

/-- `str.strip` of a newline join of edge-clean lines drops exactly the
leading and trailing empty lines. -/
theorem pyStrip_joinNl (ls : List (List Char))
    (h1 : ∀ l ∈ ls, noLeadWs l) (h2 : ∀ l ∈ ls, noTrailWs l) :
    pyStripL (joinNlL ls) =
      joinNlL (dropTrailEmptyLines (ls.dropWhile List.isEmpty)) := by
  show dropTrailingWs ((joinNlL ls).dropWhile isPyWs) = _
  rw [dropWhile_joinNl ls h1]
  exact dropTrailing_joinNl _
    (fun l hl => h2 l ((List.dropWhile_sublist List.isEmpty).subset hl))

theorem map_fLine_fixed (ls : List (List Char)) (h : ∀ l ∈ ls, lineGood l) :
    ls.map fLine = ls := by
  induction ls with
  | nil => rfl
  | cons l ls' ih =>
    rw [List.map_cons, fLine_fixed l (h l (List.mem_cons_self _ _)),
      ih (fun x hx => h x (List.mem_cons_of_mem _ hx))]

theorem wsNormalizeL_true_eq (s : List Char) :
    wsNormalizeL true s = joinNlL ((splitCharL '\n' s).map fLine) := rfl

/-- The whitespace stage of structure-preserving `normalize` is stable
on the function's own image. -/
theorem wsStage_stable_pre (z : List Char) :
    wsNormalizeL true (pyStripL (foldVariationsL (wsNormalizeL true z))) =
      pyStripL (foldVariationsL (wsNormalizeL true z)) := by
  have hlines1 : ∀ l ∈ (splitCharL '\n' z).map fLine, lineGood l := by
    intro l hl
    rcases List.mem_map.mp hl with ⟨l0, hl0, he⟩
    rw [← he]
    exact fLine_lineGood l0 (mem_splitCharL_not_sep '\n' z l0 hl0)
  have hnd : noDbl (joinNlL ((splitCharL '\n' z).map fLine)) = true :=
    noDbl_joinNl _ (fun l hl => noDbl_of_flatFixed l (hlines1 l hl).1)
  have hfold : foldVariationsL (wsNormalizeL true z) =
      joinNlL (((((splitCharL '\n' z).map fLine).map
        (charExpand (Char.ofNat 0x2013) ['-'])).map
        (charExpand (Char.ofNat 0x2014) ['-'])).map
        (charExpand (Char.ofNat 0x2026) ['.', '.', '.'])) := by
    rw [wsNormalizeL_true_eq, foldVariationsL_eq_charExpand _ hnd,
      charExpand_joinNl (Char.ofNat 0x2013) ['-'] (by decide),
      charExpand_joinNl (Char.ofNat 0x2014) ['-'] (by decide),
      charExpand_joinNl (Char.ofNat 0x2026) ['.', '.', '.'] (by decide)]
  have hlines2 : ∀ l ∈ (((((splitCharL '\n' z).map fLine).map
      (charExpand (Char.ofNat 0x2013) ['-'])).map
      (charExpand (Char.ofNat 0x2014) ['-'])).map
      (charExpand (Char.ofNat 0x2026) ['.', '.', '.'])), lineGood l := by
    intro l hl
    rcases List.mem_map.mp hl with ⟨l2, hl2, he2⟩
    rcases List.mem_map.mp hl2 with ⟨l1, hl1, he1⟩
    rcases List.mem_map.mp hl1 with ⟨l0, hl0, he0⟩
    rw [← he2, ← he1, ← he0]
    apply lineGood_charExpand _ _ (by simp) (by decide) (by decide)
    apply lineGood_charExpand _ _ (by simp) (by decide) (by decide)
    apply lineGood_charExpand _ _ (by simp) (by decide) (by decide)
    exact hlines1 l0 hl0
  rw [hfold,
    pyStrip_joinNl _ (fun l hl => (hlines2 l hl).2.1)
      (fun l hl => (hlines2 l hl).2.2.1)]
  have hlines3 : ∀ l ∈ dropTrailEmptyLines
      ((((((splitCharL '\n' z).map fLine).map
        (charExpand (Char.ofNat 0x2013) ['-'])).map
        (charExpand (Char.ofNat 0x2014) ['-'])).map
        (charExpand (Char.ofNat 0x2026) ['.', '.', '.'])).dropWhile
          List.isEmpty), lineGood l := by
    intro l hl
    exact hlines2 l ((List.dropWhile_sublist _).subset
      (mem_dropTrailEmptyLines _ l hl))
  by_cases h3 : dropTrailEmptyLines
      ((((((splitCharL '\n' z).map fLine).map
        (charExpand (Char.ofNat 0x2013) ['-'])).map
        (charExpand (Char.ofNat 0x2014) ['-'])).map
        (charExpand (Char.ofNat 0x2026) ['.', '.', '.'])).dropWhile
          List.isEmpty) = []
  · rw [h3]
    rfl
  · rw [wsNormalizeL_true_eq,
      splitNl_joinNl _ h3 (fun l hl => (hlines3 l hl).2.2.2),
      map_fLine_fixed _ hlines3]

/-!
## The idempotence analysis of `normalize`
-/

/-- `normalize` is idempotent on every input whose normalized form is
left fixed by the six character-substitution stages (lower-casing,
tracking-strip, URL substitution, email substitution, zero-width
removal, `variations` folding); the whitespace and strip stages are
always stable on the image (`wsStage_stable_flat` / `_pre`,
`pyStripL_idem`). -/
theorem normalizeL_idem_of_stable (p : Bool) (x : List Char)
    (h1 : (normalizeL p x).map lowerChar = normalizeL p x)
    (h2 : stripTrackingL (normalizeL p x) = normalizeL p x)
    (h3 : urlSubL (normalizeL p x) = normalizeL p x)
    (h4 : emailSubL (normalizeL p x) = normalizeL p x)
    (h5 : zwRemoveL (normalizeL p x) = normalizeL p x)
    (h6 : foldVariationsL (normalizeL p x) = normalizeL p x) :
    normalizeL p (normalizeL p x) = normalizeL p x := by
  by_cases hx : x.isEmpty = true
  · have hx0 : x = [] := by simpa using hx
    subst hx0
    show normalizeL p (normalizeL p []) = normalizeL p []
    simp [normalizeL]
  · by_cases hy : normalizeL p x = []
    · rw [hy]
      simp [normalizeL]
    · have openNorm : normalizeL p (normalizeL p x) =
          pyStripL (foldVariationsL (wsNormalizeL p (zwRemoveL (emailSubL (urlSubL
            (stripTrackingL ((normalizeL p x).map lowerChar))))))) := by
        show (if (normalizeL p x).isEmpty then [] else _) = _
        rw [if_neg (by simpa [List.isEmpty_iff] using hy)]
      have openInner : normalizeL p x =
          pyStripL (foldVariationsL (wsNormalizeL p (zwRemoveL (emailSubL (urlSubL
            (stripTrackingL (x.map lowerChar))))))) := by
        show (if x.isEmpty then [] else _) = _
        rw [if_neg hx]
      rw [openNorm, h1, h2, h3, h4, h5]
      have hws : wsNormalizeL p (normalizeL p x) = normalizeL p x := by
        rw [openInner]
        cases p
        · exact wsStage_stable_flat _
        · exact wsStage_stable_pre _
      rw [hws, h6, openInner]
      exact pyStripL_idem _

/-!
## Factorization and congruence of `normalize`; parse normal forms
-/

theorem normalizeL_factor (p : Bool) (s : List Char) :
    normalizeL p s = postTrackL p (trackStripLowerL s) := by
  by_cases hs : s.isEmpty = true
  · have hs0 : s = [] := by simpa using hs
    subst hs0
    cases p <;> rfl
  · show (if s.isEmpty then [] else _) = _
    rw [if_neg hs]
    rfl

theorem normalize_congr_trackEq (a b : String) (p : Bool) (h : trackEq a b) :
    ContentNormalizer.normalize a p = ContentNormalizer.normalize b p := by
  apply String.ext
  show normalizeL p a.data = normalizeL p b.data
  rw [normalizeL_factor, normalizeL_factor,
    show trackStripLowerL a.data = trackStripLowerL b.data from h]

theorem normalize_empty (p : Bool) : ContentNormalizer.normalize ("") p = "" := rfl

theorem contentHashOf_congr (a b : Option String) (h : optTrackEq a b) :
    contentHashOf a = contentHashOf b := by
  cases a with
  | none =>
    cases b with
    | none => rfl
    | some b0 => exact absurd h (by simp [optTrackEq])
  | some a0 =>
    cases b with
    | none => exact absurd h (by simp [optTrackEq])
    | some b0 =>
      have he : ContentNormalizer.normalize a0 false =
          ContentNormalizer.normalize b0 false :=
        normalize_congr_trackEq a0 b0 false h
      show contentHashOf (some a0) = contentHashOf (some b0)
      simp only [contentHashOf]
      by_cases ha0 : a0 = ""
      · rw [if_pos ha0]
        by_cases hb0 : b0 = ""
        · rw [if_pos hb0]
        · rw [if_neg hb0]
          have hnb : ContentNormalizer.normalize b0 false = "" := by
            rw [← he, ha0, normalize_empty]
          rw [hnb, if_pos rfl]
      · rw [if_neg ha0]
        by_cases hb0 : b0 = ""
        · rw [if_pos hb0]
          have hna : ContentNormalizer.normalize a0 false = "" := by
            rw [he, hb0, normalize_empty]
          rw [hna, if_pos rfl]
        · rw [if_neg hb0, he]

theorem parse_eq_forward (content : String) (hne : ¬(content = ""))
    (pre post : List Char)
    (hf : forwardSplitL content.data = some (pre, post)) :
    parse_email_structure content =
      { type := "forward",
        new_content := optOfContent (removeSignaturesL (pyStripL pre)),
        quoted_content := some (String.mk (pyStripL post)),
        new_content_meaningful := isMeaningfulL (removeSignaturesL (pyStripL pre)),
        new_content_intent := detectIntentL (removeSignaturesL (pyStripL pre)),
        parsing_confidence := 9/10 } := by
  show (if content = "" then _ else _) = _
  rw [if_neg hne, hf]

theorem parse_eq_reply (content : String) (hne : ¬(content = ""))
    (hf : forwardSplitL content.data = none)
    (pre post : List Char)
    (hr : replySplitL content.data = some (pre, post)) :
    parse_email_structure content =
      { type := "reply",
        new_content := optOfContent (removeSignaturesL (pyStripL pre)),
        quoted_content := some (String.mk (pyStripL post)),
        new_content_meaningful := isMeaningfulL (removeSignaturesL (pyStripL pre)),
        new_content_intent := detectIntentL (removeSignaturesL (pyStripL pre)),
        parsing_confidence := 85/100 } := by
  show (if content = "" then _ else _) = _
  rw [if_neg hne, hf, hr]

theorem parse_eq_original (content : String) (hne : ¬(content = ""))
    (hf : forwardSplitL content.data = none)
    (hr : replySplitL content.data = none) :
    parse_email_structure content =
      { type := "original",
        new_content := some (String.mk (removeSignaturesL content.data)),
        quoted_content := none,
        new_content_meaningful := true,
        new_content_intent := some ("original_message"),
        parsing_confidence := 95/100 } := by
  show (if content = "" then _ else _) = _
  rw [if_neg hne, hf, hr]

theorem parse_eq_empty :
    parse_email_structure ("") =
      { type := "empty", new_content := none, quoted_content := none,
        new_content_meaningful := false, new_content_intent := none,
        parsing_confidence := 1 } := rfl

theorem isMeaningfulL_iff (l : List Char) :
    isMeaningfulL l = true ↔ pyStripL l ≠ [] := by
  by_cases hl : l.isEmpty = true
  · have hl0 : l = [] := by simpa using hl
    subst hl0
    simp [isMeaningfulL, pyStripL, dropTrailingWs]
  · show (if l.isEmpty || (pyStripL l).length = 0 then false else _) = true ↔ _
    by_cases hs : (pyStripL l).length = 0
    · rw [if_pos (by simp [hs])]
      simp [List.length_eq_zero.mp hs]
    · rw [if_neg (by simp [hl, hs])]
      have : pyStripL l ≠ [] := by
        intro he
        rw [he] at hs
        simp at hs
      simp [this, Nat.pos_of_ne_zero hs]


theorem removeSignaturesL_eq (t : List Char) :
    removeSignaturesL t =
      if t.isEmpty then t
      else
        match sigSearch signaturePatterns t with
        | some before => pyStripL before
        | none => t := rfl

theorem removeSignaturesL_of_stripped (t : List Char) (h : pyStripL t = t) :
    pyStripL (removeSignaturesL t) = removeSignaturesL t := by
  rw [removeSignaturesL_eq]
  by_cases he : t.isEmpty = true
  · rw [if_pos he]
    exact h
  · rw [if_neg he]
    cases hsig : sigSearch signaturePatterns t with
    | some before => exact pyStripL_idem before
    | none => exact h

theorem detectIntent_optOf (nc : List Char) :
    detectIntent ((optOfContent nc).getD ("")) = detectIntentL nc := by
  by_cases h : nc.isEmpty = true
  · have h0 : nc = [] := by simpa using h
    subst h0
    rfl
  · show detectIntent ((if nc.isEmpty then none
      else some (String.mk nc)).getD ("")) = _
    rw [if_neg h]
    rfl

theorem mk_ne_empty_iff (l : List Char) : String.mk l ≠ "" ↔ l ≠ [] := by
  constructor
  · intro h he
    exact h (by rw [he])
  · intro h he
    exact h (congrArg String.data he)

theorem pyStrip_mk (l : List Char) :
    pyStrip (String.mk l) = String.mk (pyStripL l) := rfl

/-!
## Field views of `generate_fingerprints`
-/

theorem genFP_full (run : String → HtmlParseOutcome) (e : EmailData) :
    (generate_fingerprints run e).full_content_hash =
      Digest.str (ContentNormalizer.normalize (extract_content run e) true) := rfl

theorem genFP_composite (run : String → HtmlParseOutcome) (e : EmailData) :
    (generate_fingerprints run e).composite_hash =
      Digest.combine (([
        contentHashOf (parse_email_structure (extract_content run e)).new_content,
        contentHashOf (parse_email_structure (extract_content run e)).quoted_content,
        some (Digest.str (ContentNormalizer.normalize (extract_content run e) true)),
        some (generate_structure_hash e (parse_email_structure (extract_content run e))),
        some (generate_thread_hash e),
        some (generate_recipient_hash e)]).filterMap id) := rfl

/-!
## The claims
-/

/-- C9: `html_to_text` is total: it returns the empty string on empty
input; when the standard-library parsing stages fail (modelled by the
`run` oracle returning `failed` with the content at the point of the
exception) it degrades to the blunt tag-stripping-plus-whitespace-
collapse fallback rather than raising; and when parsing succeeds it
returns the extractor's text.  In every case a string is returned. -/
theorem C9_html_total (run : String → HtmlParseOutcome) (html : String) :
    (html = "" → html_to_text run html = "") ∧
    (∀ s, html ≠ "" → run html = HtmlParseOutcome.failed s →
      html_to_text run html = fallbackStrip s) ∧
    (∀ tokens, html ≠ "" → run html = HtmlParseOutcome.parsed tokens →
      html_to_text run html = getText (feedTokens tokens)) := by
  refine ⟨?_, ?_, ?_⟩
  · intro h
    rw [h]
    rfl
  · intro s hne hrun
    show (if html = "" then "" else _) = _
    rw [if_neg hne, hrun]
  · intro tokens hne hrun
    show (if html = "" then "" else _) = _
    rw [if_neg hne, hrun]

/-- Witness for `C9_html_total` at a concrete failing parse and at the
empty input. -/
theorem C9_html_total_witness :
    html_to_text (fun _ => HtmlParseOutcome.failed ("<p>Broken")) ("<p>Broken") =
      fallbackStrip ("<p>Broken") ∧
    html_to_text (fun _ => HtmlParseOutcome.failed ("<p>Broken")) ("") = "" :=
  ⟨(C9_html_total (fun _ => HtmlParseOutcome.failed ("<p>Broken")) ("<p>Broken")).2.1
      ("<p>Broken") (by decide) rfl,
   (C9_html_total (fun _ => HtmlParseOutcome.failed ("<p>Broken")) ("")).1 rfl⟩

/-- C10: for every input, the composite hash is the hash of the
`'|'`-join of exactly the non-null component hashes, in the fixed order
new, quoted, full, structure, thread, recipients — and since the full,
structure, thread and recipient-set hashes are always present (they are
non-optional fields computed for every input, only `new_content_hash`
and `quoted_content_hash` are nullable), at least four component hashes
always enter the composite, even for an email with no content at all. -/
theorem C10_composite_components (run : String → HtmlParseOutcome) (e : EmailData) :
    (generate_fingerprints run e).composite_hash =
      Digest.combine (([
        (generate_fingerprints run e).new_content_hash,
        (generate_fingerprints run e).quoted_content_hash,
        some (generate_fingerprints run e).full_content_hash,
        some (generate_fingerprints run e).structure_hash,
        some (generate_fingerprints run e).thread_hash,
        some (generate_fingerprints run e).recipient_set_hash]).filterMap id) ∧
    4 ≤ (([
        (generate_fingerprints run e).new_content_hash,
        (generate_fingerprints run e).quoted_content_hash,
        some (generate_fingerprints run e).full_content_hash,
        some (generate_fingerprints run e).structure_hash,
        some (generate_fingerprints run e).thread_hash,
        some (generate_fingerprints run e).recipient_set_hash]).filterMap id).length := by
  constructor
  · rfl
  · cases (generate_fingerprints run e).new_content_hash <;>
      cases (generate_fingerprints run e).quoted_content_hash <;>
      simp [List.filterMap]

/-- C2 (code bug): the body `"?utm_a=1"` is non-empty but normalizes to
the empty string (the tracking pattern swallows it whole), and
`generate_fingerprints` then emits the digest of the empty string as
`full_content_hash` — there is no fallback to the original content, and
`CompleteEmailFingerprint` has no metadata field that could flag one. -/
theorem C2_empty_hash_bug :
    ("?utm_a=1" : String) ≠ "" ∧
    ContentNormalizer.normalize ("?utm_a=1") true = "" ∧
    (generate_fingerprints (fun _ => HtmlParseOutcome.failed (""))
        { body_text := "?utm_a=1" }).full_content_hash = Digest.str ("") :=
  ⟨by decide, by decide, by decide⟩

/-- C8 counterexample: an input without `'@'` is returned verbatim, not
lower-cased or trimmed: `resolve "ABC" = "ABC" ≠ "abc"`. -/
theorem C8_resolve_counterexample :
    resolve ("ABC") = "ABC" ∧
    pyStrip (lowerStr ("ABC")) = "abc" ∧
    resolve ("ABC") ≠ pyStrip (lowerStr ("ABC")) :=
  ⟨by decide, by decide, by decide⟩

/-- C8 amended: for every input string that does not contain an `'@'`
character, `resolve` returns the input completely unchanged (the
lower-casing and trimming happen only after the `'@'` guard). -/
theorem C8_resolve_amended (email : String)
    (h : email.data.any (fun c => c = '@') = false) :
    resolve email = email := by
  show (if email = "" || !(email.data.any (fun c => c = '@')) then email else _) = email
  rw [if_pos (by rw [h]; simp)]

/-- Witness for `C8_resolve_amended` at a mixed-case input. -/
theorem C8_resolve_witness : resolve ("MiXeD CaSe ") = "MiXeD CaSe " :=
  C8_resolve_amended ("MiXeD CaSe ") (by decide)

/-- C3 counterexample: `normalize` is not idempotent.  The placeholder
`[URL]` is substituted after lower-casing, so a second application
lower-cases it: `normalize "See http://a.com" = "see [URL]"`, while
`normalize "see [URL]" = "see [url]"`. -/
theorem C3_idempotence_counterexample :
    ContentNormalizer.normalize
        (ContentNormalizer.normalize ("See http://a.com") false) false ≠
      ContentNormalizer.normalize ("See http://a.com") false ∧
    ContentNormalizer.normalize ("See http://a.com") false = "see [URL]" ∧
    ContentNormalizer.normalize ("see [URL]") false = "see [url]" :=
  ⟨by decide, by decide, by decide⟩

/-- C3 amended: `normalize` is idempotent (for either value of the
preserve-structure flag) on every input whose normalized form is left
fixed by the six character-substitution stages — lower-casing (this is
what the inserted `[URL]`/`[EMAIL]` placeholders break), tracking-
pattern stripping, URL and email substitution, zero-width removal and
the `variations` folding.  The whitespace-normalization and strip
stages are proved stable on the image unconditionally
(`wsStage_stable_flat`, `wsStage_stable_pre`, `pyStripL_idem`), so they
need no hypothesis. -/
theorem C3_normalize_idem_amended (x : String) (p : Bool)
    (h1 : lowerStr (ContentNormalizer.normalize x p) = ContentNormalizer.normalize x p)
    (h2 : stripTracking (ContentNormalizer.normalize x p) = ContentNormalizer.normalize x p)
    (h3 : urlSub (ContentNormalizer.normalize x p) = ContentNormalizer.normalize x p)
    (h4 : emailSub (ContentNormalizer.normalize x p) = ContentNormalizer.normalize x p)
    (h5 : zwRemove (ContentNormalizer.normalize x p) = ContentNormalizer.normalize x p)
    (h6 : foldVariations (ContentNormalizer.normalize x p) = ContentNormalizer.normalize x p) :
    ContentNormalizer.normalize (ContentNormalizer.normalize x p) p =
      ContentNormalizer.normalize x p := by
  apply String.ext
  show normalizeL p (normalizeL p x.data) = normalizeL p x.data
  exact normalizeL_idem_of_stable p x.data
    (congrArg String.data h1) (congrArg String.data h2) (congrArg String.data h3)
    (congrArg String.data h4) (congrArg String.data h5) (congrArg String.data h6)

/-- Witness for `C3_normalize_idem_amended`, in flat mode and in
structure-preserving mode. -/
theorem C3_normalize_idem_witness :
    ContentNormalizer.normalize
        (ContentNormalizer.normalize ("  Hello,   World  ") false) false =
      ContentNormalizer.normalize ("  Hello,   World  ") false ∧
    ContentNormalizer.normalize
        (ContentNormalizer.normalize ("Dear  Bob,\n  see attached.\n") true) true =
      ContentNormalizer.normalize ("Dear  Bob,\n  see attached.\n") true :=
  ⟨C3_normalize_idem_amended ("  Hello,   World  ") false (by decide) (by decide)
      (by decide) (by decide) (by decide) (by decide),
   C3_normalize_idem_amended ("Dear  Bob,\n  see attached.\n") true (by decide) (by decide)
      (by decide) (by decide) (by decide) (by decide)⟩

/-- C4 counterexample: the claimed normal form `"click [url]"` is
wrong — the placeholder is substituted after lower-casing and keeps its
upper case, so the example body normalizes to `"click [URL]"`. -/
theorem C4_url_counterexample :
    ContentNormalizer.normalize ("click http://a.com/x?utm_source=1") false ≠
      "click [url]" ∧
    ContentNormalizer.normalize ("click http://a.com/x?utm_source=1") false =
      "click [URL]" :=
  ⟨by decide, by decide⟩

/-- C4 amended: two bodies that agree after the placeholder-
substitution stages (lower-casing, tracking-strip, URL and email
substitution — the formal rendering of "differ only in embedded URLs or
email-address mentions") normalize identically, and the two example
bodies both normalize to `"click [URL]"` (upper-case placeholder, not
`"click [url]"`). -/
theorem C4_url_invariance_amended :
    (∀ (a b : String) (p : Bool),
      emailSub (urlSub (stripTracking (lowerStr a))) =
        emailSub (urlSub (stripTracking (lowerStr b))) →
      ContentNormalizer.normalize a p = ContentNormalizer.normalize b p) ∧
    ContentNormalizer.normalize ("click http://a.com/x?utm_source=1") false =
      "click [URL]" ∧
    ContentNormalizer.normalize ("click http://b.com/y") false = "click [URL]" := by
  refine ⟨?_, by decide, by decide⟩
  intro a b p h
  apply String.ext
  show normalizeL p a.data = normalizeL p b.data
  rw [normalizeL_factor, normalizeL_factor]
  show pyStripL (foldVariationsL (wsNormalizeL p (zwRemoveL (emailSubL (urlSubL
      (trackStripLowerL a.data)))))) = _
  rw [show emailSubL (urlSubL (trackStripLowerL a.data)) =
      emailSubL (urlSubL (trackStripLowerL b.data)) from congrArg String.data h]
  rfl

/-- Witness for the universal part of `C4_url_invariance_amended`:
bodies differing only in their embedded URL normalize identically. -/
theorem C4_url_invariance_witness :
    ContentNormalizer.normalize ("visit http://a.com today") false =
      ContentNormalizer.normalize ("visit https://b.org/path today") false :=
  C4_url_invariance_amended.1 ("visit http://a.com today")
    ("visit https://b.org/path today") false (by decide)

/-- C5 counterexample: in the spec's own example the returned
`quoted_content` starts after the forwarded banner (the source slices
at `match.end()`), not at the banner itself as the claim states. -/
theorem C5_quoted_counterexample :
    (parse_email_structure
        ("Hi team, see below.\n\n----- Forwarded message -----\nFrom: a@b.com says hi")).quoted_content =
      some ("From: a@b.com says hi") ∧
    (parse_email_structure
        ("Hi team, see below.\n\n----- Forwarded message -----\nFrom: a@b.com says hi")).quoted_content ≠
      some ("----- Forwarded message -----\nFrom: a@b.com says hi") :=
  ⟨by decide, by decide⟩

/-- C5 amended: whenever the first matching pattern of the ordered
forward-pattern table splits the body (`forwardSplitL` returns the text
before the match and the text after the match), the parse has
kind `forward` with confidence 0.9, `new_content` is the
signature-stripped text before the match (`None` when empty), and
`quoted_content` is the stripped text *after* the match — the banner
itself is dropped, it does not open the quoted content. -/
theorem C5_forward_parse_amended (content : String) (pre post : List Char)
    (hne : content ≠ "")
    (hf : forwardSplitL content.data = some (pre, post)) :
    (parse_email_structure content).type = "forward" ∧
    (parse_email_structure content).parsing_confidence = 9/10 ∧
    (parse_email_structure content).new_content =
      optOfContent (removeSignaturesL (pyStripL pre)) ∧
    (parse_email_structure content).quoted_content =
      some (String.mk (pyStripL post)) ∧
    (parse_email_structure content).new_content_meaningful =
      isMeaningfulL (removeSignaturesL (pyStripL pre)) ∧
    (parse_email_structure content).new_content_intent =
      detectIntentL (removeSignaturesL (pyStripL pre)) := by
  rw [parse_eq_forward content hne pre post hf]
  exact ⟨rfl, rfl, rfl, rfl, rfl, rfl⟩

/-- Witness for `C5_forward_parse_amended` on the spec's example. -/
theorem C5_forward_parse_witness :
    (parse_email_structure
        ("Hi team, see below.\n\n----- Forwarded message -----\nFrom: a@b.com says hi")).type =
      "forward" ∧
    (parse_email_structure
        ("Hi team, see below.\n\n----- Forwarded message -----\nFrom: a@b.com says hi")).parsing_confidence =
      9/10 ∧
    (parse_email_structure
        ("Hi team, see below.\n\n----- Forwarded message -----\nFrom: a@b.com says hi")).new_content =
      optOfContent (removeSignaturesL (pyStripL (("Hi team, see below.\n\n").data))) ∧
    (parse_email_structure
        ("Hi team, see below.\n\n----- Forwarded message -----\nFrom: a@b.com says hi")).quoted_content =
      some (String.mk (pyStripL (("\nFrom: a@b.com says hi").data))) ∧
    (parse_email_structure
        ("Hi team, see below.\n\n----- Forwarded message -----\nFrom: a@b.com says hi")).new_content_meaningful =
      isMeaningfulL (removeSignaturesL (pyStripL (("Hi team, see below.\n\n").data))) ∧
    (parse_email_structure
        ("Hi team, see below.\n\n----- Forwarded message -----\nFrom: a@b.com says hi")).new_content_intent =
      detectIntentL (removeSignaturesL (pyStripL (("Hi team, see below.\n\n").data))) :=
  C5_forward_parse_amended
    ("Hi team, see below.\n\n----- Forwarded message -----\nFrom: a@b.com says hi")
    (("Hi team, see below.\n\n").data) (("\nFrom: a@b.com says hi").data)
    (by decide) (by decide)

/-- C6 counterexample: a body with no forward or reply marker parses as
kind `original`, whose intent is the hard-coded `"original_message"` —
not the phrase-table/word-count rule, which would classify the two-word
body `"hello world"` as `"comment"`. -/
theorem C6_intent_counterexample :
    (parse_email_structure ("hello world")).new_content_intent ≠
      detectIntent ("hello world") ∧
    detectIntent ("hello world") = some ("comment") ∧
    (parse_email_structure ("hello world")).new_content_intent =
      some ("original_message") :=
  ⟨by decide, by decide, by decide⟩

/-- C6 amended: the intent of the post-signature-strip `new_content` is
computed by the ordered phrase table with the word-count fallback
(`detectIntent`) for the `forward` and `reply` outcomes only; for the
`original` outcome the intent is always the constant
`"original_message"` (and for `empty` it is `None`). -/
theorem C6_intent_amended (content : String) :
    (((parse_email_structure content).type = "forward" ∨
        (parse_email_structure content).type = "reply") →
      (parse_email_structure content).new_content_intent =
        detectIntent ((parse_email_structure content).new_content.getD (""))) ∧
    ((parse_email_structure content).type = "original" →
      (parse_email_structure content).new_content_intent =
        some ("original_message")) := by
  by_cases hne : content = ""
  · subst hne
    rw [parse_eq_empty]
    dsimp only
    constructor
    · intro h
      rcases h with h | h <;> exact absurd h (by decide)
    · intro h
      exact absurd h (by decide)
  · cases hf : forwardSplitL content.data with
    | some pp =>
      rw [parse_eq_forward content hne pp.1 pp.2 (by rw [hf])]
      dsimp only
      constructor
      · intro _
        exact (detectIntent_optOf _).symm
      · intro h
        exact absurd h (by decide)
    | none =>
      cases hr : replySplitL content.data with
      | some pp =>
        rw [parse_eq_reply content hne hf pp.1 pp.2 (by rw [hr])]
        dsimp only
        constructor
        · intro _
          exact (detectIntent_optOf _).symm
        · intro h
          exact absurd h (by decide)
      | none =>
        rw [parse_eq_original content hne hf hr]
        dsimp only
        constructor
        · intro h
          rcases h with h | h <;> exact absurd h (by decide)
        · intro _
          rfl

/-- Witness for `C6_intent_amended` on a forward and on an original
body. -/
theorem C6_intent_witness :
    (parse_email_structure
        ("Hi team, see below.\n\n----- Forwarded message -----\nFrom: a@b.com says hi")).new_content_intent =
      detectIntent ((parse_email_structure
        ("Hi team, see below.\n\n----- Forwarded message -----\nFrom: a@b.com says hi")).new_content.getD ("")) ∧
    (parse_email_structure ("hello world")).new_content_intent =
      some ("original_message") :=
  ⟨(C6_intent_amended
      ("Hi team, see below.\n\n----- Forwarded message -----\nFrom: a@b.com says hi")).1
      (Or.inl (by decide)),
   (C6_intent_amended ("hello world")).2 (by decide)⟩

/-- C7 counterexample: for the body `"--\nJane"` (everything is
signature), the original-email branch stores the empty string as
`new_content` and hard-codes the meaningful flag to true, so the
claimed "true iff non-null and non-empty after trimming" fails. -/
theorem C7_meaningful_counterexample :
    ¬(((parse_email_structure ("--\nJane")).new_content_meaningful = true) ↔
      ((parse_email_structure ("--\nJane")).new_content ≠ none ∧
        pyStrip ((parse_email_structure ("--\nJane")).new_content.getD ("")) ≠ "")) ∧
    (parse_email_structure ("--\nJane")).new_content = some ("") ∧
    (parse_email_structure ("--\nJane")).new_content_meaningful = true :=
  ⟨by decide, by decide, by decide⟩

/-- C7 amended: the meaningful flag agrees with "non-empty after
trimming" for the `forward`, `reply` and `empty` outcomes; for the
`original` outcome it is hard-coded to true even when signature
stripping leaves the new content empty. -/
theorem C7_meaningful_amended (content : String) :
    ((parse_email_structure content).type ≠ "original" →
      ((parse_email_structure content).new_content_meaningful = true ↔
        pyStrip ((parse_email_structure content).new_content.getD ("")) ≠ "")) ∧
    ((parse_email_structure content).type = "original" →
      (parse_email_structure content).new_content_meaningful = true) := by
  by_cases hne : content = ""
  · subst hne
    rw [parse_eq_empty]
    dsimp only
    constructor
    · intro _
      decide
    · intro h
      exact absurd h (by decide)
  · cases hf : forwardSplitL content.data with
    | some pp =>
      rw [parse_eq_forward content hne pp.1 pp.2 (by rw [hf])]
      dsimp only
      constructor
      · intro _
        rw [isMeaningfulL_iff]
        by_cases hnc : removeSignaturesL (pyStripL pp.1) = []
        · rw [hnc]
          decide
        · rw [show optOfContent (removeSignaturesL (pyStripL pp.1)) =
              some (String.mk (removeSignaturesL (pyStripL pp.1))) from by
            show (if (removeSignaturesL (pyStripL pp.1)).isEmpty then none else _) = _
            rw [if_neg (by simpa [List.isEmpty_iff] using hnc)]]
          show _ ↔ pyStrip (String.mk _) ≠ ""
          rw [pyStrip_mk, mk_ne_empty_iff,
            removeSignaturesL_of_stripped _ (pyStripL_idem _)]
      · intro h
        exact absurd h (by decide)
    | none =>
      cases hr : replySplitL content.data with
      | some pp =>
        rw [parse_eq_reply content hne hf pp.1 pp.2 (by rw [hr])]
        dsimp only
        constructor
        · intro _
          rw [isMeaningfulL_iff]
          by_cases hnc : removeSignaturesL (pyStripL pp.1) = []
          · rw [hnc]
            decide
          · rw [show optOfContent (removeSignaturesL (pyStripL pp.1)) =
                some (String.mk (removeSignaturesL (pyStripL pp.1))) from by
              show (if (removeSignaturesL (pyStripL pp.1)).isEmpty then none else _) = _
              rw [if_neg (by simpa [List.isEmpty_iff] using hnc)]]
            show _ ↔ pyStrip (String.mk _) ≠ ""
            rw [pyStrip_mk, mk_ne_empty_iff,
              removeSignaturesL_of_stripped _ (pyStripL_idem _)]
        · intro h
          exact absurd h (by decide)
      | none =>
        rw [parse_eq_original content hne hf hr]
        dsimp only
        constructor
        · intro h
          exact absurd rfl h
        · intro _
          rfl

/-- Witness for `C7_meaningful_amended` on an original body and on a
forward body. -/
theorem C7_meaningful_witness :
    (parse_email_structure ("--\nJane")).new_content_meaningful = true ∧
    ((parse_email_structure
        ("Hi team, see below.\n\n----- Forwarded message -----\nFrom: a@b.com says hi")).new_content_meaningful = true ↔
      pyStrip ((parse_email_structure
        ("Hi team, see below.\n\n----- Forwarded message -----\nFrom: a@b.com says hi")).new_content.getD ("")) ≠ "") :=
  ⟨(C7_meaningful_amended ("--\nJane")).2 (by decide),
   (C7_meaningful_amended
      ("Hi team, see below.\n\n----- Forwarded message -----\nFrom: a@b.com says hi")).1
      (by decide)⟩

/-- C1 counterexample: two records identical except that the body URL
differs only in a click-tracking path segment
(`https://mailtrack.io/trace/abc123` vs `https://mailtrack.io`).
Stripping the tracking pattern leaves the residue `"see https://"`,
which the URL pattern no longer matches, while the other body becomes
`"see [URL]"` — so both the full-content hash and the composite hash
differ. -/
theorem C1_tracking_counterexample :
    (generate_fingerprints (fun _ => .failed (""))
        { body_text := ("see https://mailtrack.io/trace/abc123") }).full_content_hash ≠
      (generate_fingerprints (fun _ => .failed (""))
        { body_text := ("see https://mailtrack.io") }).full_content_hash ∧
    (generate_fingerprints (fun _ => .failed (""))
        { body_text := ("see https://mailtrack.io/trace/abc123") }).composite_hash ≠
      (generate_fingerprints (fun _ => .failed (""))
        { body_text := ("see https://mailtrack.io") }).composite_hash ∧
    ContentNormalizer.normalize ("see https://mailtrack.io/trace/abc123") true =
      ("see https://") ∧
    ContentNormalizer.normalize ("see https://mailtrack.io") true = ("see [URL]") :=
  ⟨by decide, by decide, by decide, by decide⟩

/-- C1 amended: two records that agree on every field except body text
and body HTML produce identical full-content and composite hashes
provided their extracted contents agree after lower-casing and
tracking-pattern removal, and the parses of the two extracted contents
have the same kind and meaningful flag and tracking-equivalent new and
quoted parts. In particular this holds when tracking removal maps both
bodies to the same string (utm parameters and whole tracking segments),
but not for every pair of URLs differing in a tracking segment. -/
theorem C1_tracking_equiv_amended (run : String → HtmlParseOutcome)
    (e1 : EmailData) (bt bh : String) (e2 : EmailData)
    (he2 : e2 = { e1 with body_text := bt, body_html := bh })
    (hbody : trackEq (extract_content run e1) (extract_content run e2))
    (htype : (parse_email_structure (extract_content run e1)).type =
      (parse_email_structure (extract_content run e2)).type)
    (hmean : (parse_email_structure (extract_content run e1)).new_content_meaningful =
      (parse_email_structure (extract_content run e2)).new_content_meaningful)
    (hnew : optTrackEq (parse_email_structure (extract_content run e1)).new_content
      (parse_email_structure (extract_content run e2)).new_content)
    (hquo : optTrackEq (parse_email_structure (extract_content run e1)).quoted_content
      (parse_email_structure (extract_content run e2)).quoted_content) :
    (generate_fingerprints run e1).full_content_hash =
      (generate_fingerprints run e2).full_content_hash ∧
    (generate_fingerprints run e1).composite_hash =
      (generate_fingerprints run e2).composite_hash := by
  subst he2
  have h3 : ContentNormalizer.normalize (extract_content run e1) true =
      ContentNormalizer.normalize
        (extract_content run ({ e1 with body_text := bt, body_html := bh })) true :=
    normalize_congr_trackEq _ _ true hbody
  have h1 := contentHashOf_congr _ _ hnew
  have h2 := contentHashOf_congr _ _ hquo
  have hst : generate_structure_hash e1
      (parse_email_structure (extract_content run e1)) =
      generate_structure_hash ({ e1 with body_text := bt, body_html := bh })
        (parse_email_structure
          (extract_content run ({ e1 with body_text := bt, body_html := bh }))) := by
    unfold generate_structure_hash
    rw [htype, hmean]
  have hth : generate_thread_hash e1 =
      generate_thread_hash ({ e1 with body_text := bt, body_html := bh }) := rfl
  have hrc : generate_recipient_hash e1 =
      generate_recipient_hash ({ e1 with body_text := bt, body_html := bh }) := rfl
  refine ⟨?_, ?_⟩
  · rw [genFP_full, genFP_full, h3]
  · rw [genFP_composite, genFP_composite, h1, h2, h3, hst, hth, hrc]

/-- Witness for `C1_tracking_equiv_amended`: bodies differing only in a
`utm_source` parameter hash identically. -/
theorem C1_tracking_equiv_witness :
    (generate_fingerprints (fun _ => .failed (""))
        { body_text := ("Click http://a.com/x?utm_source=1 now"),
          subject := ("Weekly sync"), sender_email := ("bob@example.com"),
          recipient_emails := .listVal [("alice@gmail.com")] }).full_content_hash =
      (generate_fingerprints (fun _ => .failed (""))
        { body_text := ("Click http://a.com/x now"),
          subject := ("Weekly sync"), sender_email := ("bob@example.com"),
          recipient_emails := .listVal [("alice@gmail.com")] }).full_content_hash ∧
    (generate_fingerprints (fun _ => .failed (""))
        { body_text := ("Click http://a.com/x?utm_source=1 now"),
          subject := ("Weekly sync"), sender_email := ("bob@example.com"),
          recipient_emails := .listVal [("alice@gmail.com")] }).composite_hash =
      (generate_fingerprints (fun _ => .failed (""))
        { body_text := ("Click http://a.com/x now"),
          subject := ("Weekly sync"), sender_email := ("bob@example.com"),
          recipient_emails := .listVal [("alice@gmail.com")] }).composite_hash :=
  C1_tracking_equiv_amended (fun _ => .failed (""))
    { body_text := ("Click http://a.com/x?utm_source=1 now"),
      subject := ("Weekly sync"), sender_email := ("bob@example.com"),
      recipient_emails := .listVal [("alice@gmail.com")] }
    ("Click http://a.com/x now") ("")
    { body_text := ("Click http://a.com/x now"),
      subject := ("Weekly sync"), sender_email := ("bob@example.com"),
      recipient_emails := .listVal [("alice@gmail.com")] }
    rfl (by decide) (by decide) (by decide) (by decide) (by decide)
